import Mathlib

/-!
Shallow embedding of the Nexus hackathon WebSocket room server
(`backend/server.js`): the participant registry, the per-connection
message handler, the proximity engine, the broadcast router, and the
heartbeat / TTL sweep.  Times are integers (milliseconds), coordinates
are integers after JS `Math.round`, and finite JS numbers arriving in a
`move` payload are modelled as rationals.
-/

set_option maxHeartbeats 1000000

/-- Configuration constant `ROOM.width` from `server.js`. -/
def ROOM_WIDTH : Int := 1600

/-- Configuration constant `ROOM.height` from `server.js`. -/
def ROOM_HEIGHT : Int := 900

/-- Configuration constant `MOVE_RATE_LIMIT_MS`. -/
def MOVE_RATE_LIMIT_MS : Int := 12

/-- Configuration constant `CHAT_RATE_LIMIT_MS`. -/
def CHAT_RATE_LIMIT_MS : Int := 1000

/-- Configuration constant `MAX_MESSAGE_LENGTH`. -/
def MAX_MESSAGE_LENGTH : Nat := 200

/-- Configuration constant `CONNECTION_TTL_MS`. -/
def CONNECTION_TTL_MS : Int := 30000

/-- Configuration constant `PROXIMITY_RADIUS`. -/
def PROXIMITY_RADIUS : Int := 200

/-- The literal `32` used in `name.slice(0, 32)` in the `join` and
`rename` handlers: the maximum stored name length. -/
def NAME_MAX : Nat := 32

/-- JS `clamp = (v, min, max) => Math.max(min, Math.min(max, v))`. -/
def clamp (v lo hi : Int) : Int := max lo (min hi v)

/-- JS `Math.round` on a finite number: `⌊v + 1/2⌋`, written over the
numerator and denominator so that it evaluates by kernel reduction
(`Batteries.Rat.add` is irreducible); `jsRound_eq` below certifies the
equation. -/
def jsRound (v : Rat) : Int := (Rat.divInt (2 * v.num + v.den) (2 * v.den)).floor

/-- `jsRound` is exactly `⌊v + 1/2⌋`, i.e. JS `Math.round` on finite
values. -/
theorem jsRound_eq (v : Rat) : jsRound v = ⌊v + 1/2⌋ := by
  unfold jsRound
  have hden : (v.den : ℚ) ≠ 0 := by
    exact_mod_cast v.den_ne_zero
  have hnum : (v.num : ℚ) = v * v.den := (div_eq_iff hden).1 (Rat.num_div_den v)
  have h1 : Rat.divInt (2 * v.num + v.den) (2 * v.den) = v + 1/2 := by
    rw [Rat.divInt_eq_div]
    push_cast
    field_simp
    rw [hnum]
    ring
  rw [h1, Rat.floor_def', Rat.floor_def]

/-- JS `String.prototype.slice(0, n)` (here on whole characters). -/
def jsTake (s : String) (n : Nat) : String := ⟨s.data.take n⟩

/-- JS `String.prototype.trim()`: strip whitespace from both ends. -/
def jsTrim (s : String) : String :=
  ⟨((s.data.dropWhile Char.isWhitespace).reverse.dropWhile Char.isWhitespace).reverse⟩

/-- One step of the `/\s+/g → " "` replacement: the flag records whether
the previous character was part of a whitespace run already emitted. -/
def collapseWsAux : Bool → List Char → List Char
  | _, [] => []
  | prevWs, ch :: rest =>
    if ch.isWhitespace then
      (if prevWs then [] else [' ']) ++ collapseWsAux true rest
    else ch :: collapseWsAux false rest

/-- JS `text.replace(/\s+/g, ' ')`: each maximal whitespace run becomes
a single space. -/
def collapseWs (l : List Char) : List Char := collapseWsAux false l

/-- `sanitizeMessage` from `server.js`: trim, slice to
`MAX_MESSAGE_LENGTH`, drop angle brackets, collapse whitespace runs. -/
def sanitizeMessage (s : String) : String :=
  ⟨collapseWs (((jsTake (jsTrim s) MAX_MESSAGE_LENGTH).data).filter
    (fun ch => !(ch == '<' || ch == '>')))⟩

/-- A registry entry: the `Participant` record of `server.js`. -/
structure Participant where
  id : String
  name : String
  x : Int
  y : Int
  color : String
  lastSeen : Int
deriving DecidableEq

/-- `toClientParticipant`: the view sent on the wire (drops `lastSeen`). -/
structure ClientView where
  id : String
  name : String
  x : Int
  y : Int
  color : String
deriving DecidableEq

/-- `toClientParticipant(p)` from `server.js`. -/
def toClientParticipant (p : Participant) : ClientView :=
  ⟨p.id, p.name, p.x, p.y, p.color⟩

/-- The per-connection closure state of `wss.on("connection")`: the
captured participant object `p` (aliased with the registry value for
this id), the socket flags, and the two rate-limit timestamps. -/
structure Conn where
  p : Participant
  isOpen : Bool
  isAlive : Bool
  lastMoveAt : Int
  lastChatAt : Int
deriving DecidableEq

/-- The whole server state: every connection ever accepted (open or
closed), plus the insertion-ordered key list of the `participants`
`Map`.  The `Map`'s values are exactly the closure objects `Conn.p`, so
they are not duplicated here. -/
structure ServerState where
  conns : List Conn
  present : List String
deriving DecidableEq

/-- Look up the connection whose participant id is `i`. -/
def ServerState.findConn (st : ServerState) (i : String) : Option Conn :=
  st.conns.find? (fun c => c.p.id == i)

/-- Replace every connection whose participant id is `cid` (in the real
server there is exactly one, ids being fresh UUIDs). -/
def updConn (st : ServerState) (cid : String) (f : Conn → Conn) : ServerState :=
  ⟨st.conns.map (fun c => if c.p.id == cid then f c else c), st.present⟩

/-- Store connection value `c` under id `cid`. -/
def stPut (st : ServerState) (cid : String) (c : Conn) : ServerState :=
  updConn st cid (fun _ => c)

/-- `participants.set(id, p)` for the key structure: a no-op when the
key is present (the value is the same aliased object), an append
otherwise. -/
def setPresent (st : ServerState) (cid : String) : ServerState :=
  if cid ∈ st.present then st else ⟨st.conns, st.present ++ [cid]⟩

/-- The values of the `participants` `Map`, in key insertion order. -/
def registryParts (st : ServerState) : List Participant :=
  st.present.filterMap (fun i => (st.findConn i).map (fun c => c.p))

/-- `Array.from(participants.values()).map(toClientParticipant)`. -/
def snapshot (st : ServerState) : List ClientView :=
  (registryParts st).map toClientParticipant

/-- Outbound frame types of `server.js`. -/
inductive Frame where
  | welcome (selfId : String)
  | state (ps : List ClientView)
  | joined (p : ClientView)
  | moved (id : String) (x y : Int)
  | renamed (id : String) (name : String)
  | left (id : String)
  | pong
  | proximity (selfId : String) (nearby : List String)
  | chat (senderId senderName message : String) (timestamp : Int)
  | chatError (message : String)
deriving DecidableEq

/-- `broadcast(type, payload, exceptWs)`: one copy to every open
connection other than `e`, tagged with the recipient's id. -/
def broadcastExcept (st : ServerState) (e : String) (fr : Frame) : List (String × Frame) :=
  (st.conns.filter (fun c => c.isOpen && !(c.p.id == e))).map (fun c => (c.p.id, fr))

/-- `broadcast(type, payload)` with no excluded socket. -/
def broadcastAll (st : ServerState) (fr : Frame) : List (String × Frame) :=
  (st.conns.filter (fun c => c.isOpen)).map (fun c => (c.p.id, fr))

/-- `send(ws, type, payload)`: delivered only if the socket is open. -/
def sendTo (st : ServerState) (cid : String) (fr : Frame) : List (String × Frame) :=
  match st.findConn cid with
  | some c => if c.isOpen then [(cid, fr)] else []
  | none => []

/-- `sendToParticipants(type, payload, targets)` (no `exceptWs` at the
chat call site): an open connection receives the frame when some
registry value carries its id and that id is among the targets. -/
def sendToParts (st : ServerState) (targets : List Participant) (fr : Frame) :
    List (String × Frame) :=
  (st.conns.filter (fun c =>
    c.isOpen && (registryParts st).any (fun q => q.id == c.p.id)
      && targets.any (fun q => q.id == c.p.id))).map (fun c => (c.p.id, fr))

/-- `calcNearby(p)`: ids of the other map entries within the proximity
radius (squared-distance comparison). -/
def calcNearby (parts : List Participant) (p : Participant) : List String :=
  (parts.filter (fun q =>
    !(p.id == q.id) &&
      decide ((p.x - q.x) * (p.x - q.x) + (p.y - q.y) * (p.y - q.y) ≤
        PROXIMITY_RADIUS * PROXIMITY_RADIUS))).map (fun q => q.id)

/-- `getProximityParticipants(sourceParticipant)`: like `calcNearby` but
returning the participants themselves. -/
def getProximityParticipants (parts : List Participant) (p : Participant) :
    List Participant :=
  parts.filter (fun q =>
    !(p.id == q.id) &&
      decide ((p.x - q.x) * (p.x - q.x) + (p.y - q.y) * (p.y - q.y) ≤
        PROXIMITY_RADIUS * PROXIMITY_RADIUS))

/-- A JS number arriving in a `move` payload after `Number(...)`:
either a finite value or `NaN`/`±Infinity`. -/
inductive JsNum where
  | finite (v : Rat)
  | nonFinite
deriving DecidableEq

/-- Parsed inbound frames (`JSON.parse` result dispatched by `type`).
For `join`/`rename` the carried name is the coercion
`String(payload?.name ?? "")` already applied: a non-string name field
arrives as its JS string coercion (the number `42` as `"42"`), and
`none` stands for an absent field, which coerces to the empty string —
the handlers read it through `getD ""`, so `none` and `some ""` behave
identically, exactly as absence and `""` do in the source.  For `chat`,
`none` stands for an absent or falsy `message`; a truthy non-string
message is dropped by `sanitizeMessage` (which returns `""` on
non-strings) with the same resulting state and output as the `none`
decode, so nothing is lost by folding it in. -/
inductive ClientMsg where
  | join (name : Option String)
  | move (x y : JsNum)
  | rename (name : Option String)
  | ping
  | chat (message : Option String)
  | unknown
deriving DecidableEq

/-- The `p.lastSeen = now(); ws.isAlive = true` prologue of the message
handler, applied to the connection's closure state. -/
def touchConn (c : Conn) (t : Int) : Conn :=
  { c with p := { c.p with lastSeen := t }, isAlive := true }

/-- The `ws.on("message")` handler of `server.js`, for the connection
whose id is `cid`, at time `t`.  Returns the new server state and the
frames sent, tagged by recipient id. -/
def handleMsg (st : ServerState) (cid : String) (t : Int) (m : ClientMsg) :
    ServerState × List (String × Frame) :=
  match st.findConn cid with
  | none => (st, [])
  | some c0 =>
    let c := touchConn c0 t
    match m with
    | .join name? =>
      let n := jsTrim (name?.getD "")
      if n = "" then (stPut st cid c, [])
      else
        let c' := { c with p := { c.p with name := jsTake n NAME_MAX } }
        let st' := setPresent (stPut st cid c') cid
        (st', sendTo st' cid (.state (snapshot st')) ++
          broadcastExcept st' cid (.renamed cid c'.p.name))
    | .move xr yr =>
      if t - c.lastMoveAt < MOVE_RATE_LIMIT_MS then (stPut st cid c, [])
      else
        let c1 := { c with lastMoveAt := t }
        match xr, yr with
        | .finite vx, .finite vy =>
          let x := clamp (jsRound vx) 0 ROOM_WIDTH
          let y := clamp (jsRound vy) 0 ROOM_HEIGHT
          if x = c1.p.x ∧ y = c1.p.y then (stPut st cid c1, [])
          else
            let c2 := { c1 with p := { c1.p with x := x, y := y } }
            let st' := setPresent (stPut st cid c2) cid
            (st', broadcastExcept st' cid (.moved cid x y) ++
              sendTo st' cid (.proximity cid (calcNearby (registryParts st') c2.p)))
        | _, _ => (stPut st cid c1, [])
    | .rename name? =>
      let n := jsTrim (name?.getD "")
      if n = "" then (stPut st cid c, [])
      else
        let newName := jsTake n NAME_MAX
        if newName = c.p.name then (stPut st cid c, [])
        else
          let c' := { c with p := { c.p with name := newName } }
          let st' := setPresent (stPut st cid c') cid
          (st', broadcastAll st' (.renamed cid newName))
    | .ping =>
      let st' := stPut st cid c
      (st', sendTo st' cid .pong)
    | .chat msg? =>
      if t - c.lastChatAt < CHAT_RATE_LIMIT_MS then (stPut st cid c, [])
      else
        let c1 := { c with lastChatAt := t }
        let st1 := stPut st cid c1
        let raw := msg?.getD ""
        if raw = "" then (st1, [])
        else
          let s := sanitizeMessage raw
          if s = "" then (st1, [])
          else if cid ∈ st1.present then
            let sender := c1.p
            let nearby := getProximityParticipants (registryParts st1) sender
            if nearby.isEmpty then
              (st1, sendTo st1 cid (.chatError "No one nearby to chat with"))
            else
              (st1, sendToParts st1 (sender :: nearby)
                (.chat sender.id sender.name s t))
          else (st1, [])
    | .unknown => (stPut st cid c, [])

/-- `wss.on("connection")`: register a provisional participant at spawn
`(sx, sy)`, greet the new client with `welcome` and the full `state`,
and broadcast `joined` to the others. -/
def connectClient (st : ServerState) (id : String) (sx sy : Int)
    (color : String) (t : Int) : ServerState × List (String × Frame) :=
  let p : Participant := ⟨id, "Guest-" ++ jsTake id 5, sx, sy, color, t⟩
  let c : Conn := ⟨p, true, true, 0, 0⟩
  let st' : ServerState := ⟨st.conns ++ [c], st.present ++ [id]⟩
  (st', [(id, .welcome id), (id, .state (snapshot st'))] ++
    broadcastExcept st' id (.joined (toClientParticipant p)))

/-- `ws.on("close")`: the socket is closed by the time the handler
runs; the handler deletes the registry key and broadcasts `left`
unconditionally. -/
def closeEvt (st : ServerState) (cid : String) : ServerState × List (String × Frame) :=
  let st1 := updConn st cid (fun c => { c with isOpen := false })
  let st2 : ServerState := ⟨st1.conns, st1.present.erase cid⟩
  (st2, broadcastAll st2 (.left cid))

/-- `ws.on("pong")`: refresh liveness and `lastSeen`. -/
def pongEvt (st : ServerState) (cid : String) (t : Int) : ServerState :=
  updConn st cid (fun c => { c with isAlive := true, p := { c.p with lastSeen := t } })

/-- The heartbeat interval body: terminate sockets whose liveness flag
is down (their transport `close` events fire later), lower the flag on
the rest, then evict registry entries whose `lastSeen` predates the TTL
cutoff, broadcasting `left` for each. -/
def sweepEvt (st : ServerState) (t : Int) : ServerState × List (String × Frame) :=
  let conns1 := st.conns.map (fun c =>
    if c.isOpen then
      (if c.isAlive then { c with isAlive := false } else { c with isOpen := false })
    else c)
  let stA : ServerState := ⟨conns1, st.present⟩
  let cutoff := t - CONNECTION_TTL_MS
  let isStale := fun i =>
    match stA.findConn i with
    | some c => decide (c.p.lastSeen < cutoff)
    | none => false
  let stale := stA.present.filter isStale
  let stB : ServerState := ⟨conns1, stA.present.filter (fun i => !(isStale i))⟩
  (stB, stale.flatMap (fun i => broadcastAll stB (.left i)))

/-- External events driving the server. -/
inductive Event where
  | connect (id : String) (sx sy : Int) (color : String) (t : Int)
  | msg (cid : String) (t : Int) (m : ClientMsg)
  | close (cid : String)
  | sweep (t : Int)
  | pong (cid : String) (t : Int)
deriving DecidableEq

/-- Dispatch one event. -/
def processEvent (st : ServerState) : Event → ServerState × List (String × Frame)
  | .connect id sx sy color t => connectClient st id sx sy color t
  | .msg cid t m => handleMsg st cid t m
  | .close cid => closeEvt st cid
  | .sweep t => sweepEvt st t
  | .pong cid t => (pongEvt st cid t, [])

/-- Run a sequence of events, concatenating the emitted frames. -/
def processEvents : ServerState → List Event → ServerState × List (String × Frame)
  | st, [] => (st, [])
  | st, e :: es =>
    let r := processEvent st e
    let r2 := processEvents r.1 es
    (r2.1, r.2 ++ r2.2)

/-- Number of `left {id}` frames in an output trace. -/
def countLeft (outs : List (String × Frame)) (i : String) : Nat :=
  (outs.filter (fun x => decide (x.2 = Frame.left i))).length

/-- Server states reachable from the empty boot state.  A `connect`
step carries the guarantees the code establishes: a fresh UUID and a
spawn produced by `Math.floor(Math.random() * ROOM.width/height)`. -/
inductive Reachable : ServerState → Prop where
  | init : Reachable ⟨[], []⟩
  | connect {st} (id : String) (sx sy : Int) (color : String) (t : Int) :
      Reachable st → (∀ c ∈ st.conns, c.p.id ≠ id) →
      0 ≤ sx → sx < ROOM_WIDTH → 0 ≤ sy → sy < ROOM_HEIGHT →
      Reachable (connectClient st id sx sy color t).1
  | msg {st} (cid : String) (t : Int) (m : ClientMsg) :
      Reachable st → Reachable (handleMsg st cid t m).1
  | closeE {st} (cid : String) :
      Reachable st → Reachable (closeEvt st cid).1
  | sweepE {st} (t : Int) :
      Reachable st → Reachable (sweepEvt st t).1
  | pongE {st} (cid : String) (t : Int) :
      Reachable st → Reachable (pongEvt st cid t)

/-! ### Basic lemmas about the state operations -/

theorem findConn_id {st : ServerState} {i : String} {c : Conn}
    (h : st.findConn i = some c) : c.p.id = i := by
  have := List.find?_some h
  simpa using this

theorem findConn_mem {st : ServerState} {i : String} {c : Conn}
    (h : st.findConn i = some c) : c ∈ st.conns :=
  List.mem_of_find?_eq_some h

@[simp] theorem updConn_present (st : ServerState) (cid : String) (f : Conn → Conn) :
    (updConn st cid f).present = st.present := rfl

@[simp] theorem stPut_present (st : ServerState) (cid : String) (c : Conn) :
    (stPut st cid c).present = st.present := rfl

theorem find?_put (l : List Conn) (cid : String) (c : Conn) (hc : c.p.id = cid)
    (i : String) :
    (l.map (fun a => if a.p.id == cid then c else a)).find? (fun a => a.p.id == i) =
      if i = cid then ((l.find? (fun a => a.p.id == cid)).map (fun _ => c))
      else l.find? (fun a => a.p.id == i) := by
  induction l with
  | nil => by_cases hic : i = cid <;> simp [hic]
  | cons a l ih =>
    simp only [List.map_cons]
    by_cases hac : a.p.id = cid
    · rw [show (if (a.p.id == cid) = true then c else a) = c by simp [hac]]
      by_cases hic : i = cid
      · subst hic
        have h1 : List.find? (fun a => a.p.id == i) (c :: List.map (fun a => if (a.p.id == i) = true then c else a) l) = some c :=
          List.find?_cons_of_pos _ (by simp [hc])
        have h2 : List.find? (fun a => a.p.id == i) (a :: l) = some a :=
          List.find?_cons_of_pos _ (by simp [hac])
        rw [h1, h2, if_pos rfl]
        rfl
      · have h1 : List.find? (fun a => a.p.id == i) (c :: List.map (fun a => if (a.p.id == cid) = true then c else a) l) = List.find? (fun a => a.p.id == i) (List.map (fun a => if (a.p.id == cid) = true then c else a) l) :=
          List.find?_cons_of_neg _ (by simp [hc]; exact fun h => hic h.symm)
        have h2 : List.find? (fun a => a.p.id == i) (a :: l) = List.find? (fun a => a.p.id == i) l :=
          List.find?_cons_of_neg _ (by simp [hac]; exact fun h => hic h.symm)
        rw [h1, h2, if_neg hic, ih, if_neg hic]
    · rw [show (if (a.p.id == cid) = true then c else a) = a by simp [hac]]
      by_cases hic : i = cid
      · subst hic
        have h1 : List.find? (fun a => a.p.id == i) (a :: List.map (fun a => if (a.p.id == i) = true then c else a) l) = List.find? (fun a => a.p.id == i) (List.map (fun a => if (a.p.id == i) = true then c else a) l) :=
          List.find?_cons_of_neg _ (by simp [hac])
        have h2 : List.find? (fun a => a.p.id == i) (a :: l) = List.find? (fun a => a.p.id == i) l :=
          List.find?_cons_of_neg _ (by simp [hac])
        rw [h1, h2, if_pos rfl, ih, if_pos rfl]
      · by_cases hai : a.p.id = i
        · have h1 : List.find? (fun a => a.p.id == i) (a :: List.map (fun a => if (a.p.id == cid) = true then c else a) l) = some a :=
            List.find?_cons_of_pos _ (by simp [hai])
          have h2 : List.find? (fun a => a.p.id == i) (a :: l) = some a :=
            List.find?_cons_of_pos _ (by simp [hai])
          rw [h1, h2, if_neg hic]
        · have h1 : List.find? (fun a => a.p.id == i) (a :: List.map (fun a => if (a.p.id == cid) = true then c else a) l) = List.find? (fun a => a.p.id == i) (List.map (fun a => if (a.p.id == cid) = true then c else a) l) :=
            List.find?_cons_of_neg _ (by simp [hai])
          have h2 : List.find? (fun a => a.p.id == i) (a :: l) = List.find? (fun a => a.p.id == i) l :=
            List.find?_cons_of_neg _ (by simp [hai])
          rw [h1, h2, if_neg hic, ih, if_neg hic]

theorem findConn_stPut_self {st : ServerState} {cid : String} {c0 : Conn}
    (h : st.findConn cid = some c0) (c : Conn) (hc : c.p.id = cid) :
    (stPut st cid c).findConn cid = some c := by
  unfold stPut updConn ServerState.findConn
  rw [find?_put st.conns cid c hc cid]
  simp [ServerState.findConn] at h
  simp [h]

theorem findConn_stPut_ne {st : ServerState} {cid : String} (c : Conn)
    (hc : c.p.id = cid) {i : String} (hne : i ≠ cid) :
    (stPut st cid c).findConn i = st.findConn i := by
  unfold stPut updConn ServerState.findConn
  rw [find?_put st.conns cid c hc i]
  simp [hne]

/-! ### Registry and broadcast membership -/

theorem mem_registryParts {st : ServerState} {q : Participant} :
    q ∈ registryParts st ↔
      ∃ i ∈ st.present, ∃ c, st.findConn i = some c ∧ c.p = q := by
  simp [registryParts, List.mem_filterMap]

theorem registryParts_id_mem {st : ServerState} {q : Participant}
    (h : q ∈ registryParts st) : q.id ∈ st.present := by
  rcases mem_registryParts.1 h with ⟨i, hi, c, hfc, hcq⟩
  have hid := findConn_id hfc
  rw [← hcq, hid]
  exact hi

theorem mem_broadcastExcept {st : ServerState} {e r : String} {fr fr' : Frame} :
    (r, fr') ∈ broadcastExcept st e fr ↔
      fr' = fr ∧ r ≠ e ∧ ∃ c ∈ st.conns, c.p.id = r ∧ c.isOpen := by
  simp only [broadcastExcept, List.mem_map, List.mem_filter, Bool.and_eq_true,
    Bool.not_eq_true', beq_eq_false_iff_ne, Prod.mk.injEq]
  constructor
  · rintro ⟨c, ⟨hm, ho, hne⟩, hid, hfr⟩
    exact ⟨hfr.symm, hid ▸ hne, c, hm, hid, ho⟩
  · rintro ⟨hfr, hne, c, hm, hid, ho⟩
    exact ⟨c, ⟨hm, ho, hid ▸ hne⟩, hid, hfr.symm⟩

theorem mem_broadcastAll {st : ServerState} {r : String} {fr fr' : Frame} :
    (r, fr') ∈ broadcastAll st fr ↔
      fr' = fr ∧ ∃ c ∈ st.conns, c.p.id = r ∧ c.isOpen := by
  simp only [broadcastAll, List.mem_map, List.mem_filter, Prod.mk.injEq]
  constructor
  · rintro ⟨c, ⟨hm, ho⟩, hid, hfr⟩
    exact ⟨hfr.symm, c, hm, hid, ho⟩
  · rintro ⟨hfr, c, hm, hid, ho⟩
    exact ⟨c, ⟨hm, ho⟩, hid, hfr.symm⟩

/-! ### C4: correctness of the proximity computation -/

/-- C4: `calcNearby` returns exactly the ids of the other registry
entries within squared distance `R²` of `p`, and never `p`'s own id. -/
theorem C4_nearby_correct (parts : List Participant) (p : Participant) :
    (∀ i, i ∈ calcNearby parts p ↔
      ∃ q ∈ parts, q.id = i ∧ q.id ≠ p.id ∧
        (p.x - q.x) * (p.x - q.x) + (p.y - q.y) * (p.y - q.y) ≤
          PROXIMITY_RADIUS * PROXIMITY_RADIUS) ∧
    p.id ∉ calcNearby parts p := by
  have hmain : ∀ i, i ∈ calcNearby parts p ↔
      ∃ q ∈ parts, q.id = i ∧ q.id ≠ p.id ∧
        (p.x - q.x) * (p.x - q.x) + (p.y - q.y) * (p.y - q.y) ≤
          PROXIMITY_RADIUS * PROXIMITY_RADIUS := by
    intro i
    simp only [calcNearby, List.mem_map, List.mem_filter, Bool.and_eq_true,
      Bool.not_eq_true', beq_eq_false_iff_ne, decide_eq_true_eq]
    constructor
    · rintro ⟨q, ⟨hm, hne, hd⟩, hid⟩
      exact ⟨q, hm, hid, fun h => hne h.symm, hd⟩
    · rintro ⟨q, hm, hid, hne, hd⟩
      exact ⟨q, ⟨hm, fun h => hne h.symm, hd⟩, hid⟩
  refine ⟨hmain, fun h => ?_⟩
  rcases (hmain p.id).1 h with ⟨q, _, hid, hne, _⟩
  exact hne hid

/-! ### Branch equations for the message handler -/

/-- The connection state after an accepted `join`/`rename` stored the
clamped name `nm` (on top of the `lastSeen`/`isAlive` prologue). -/
def renameConn (c : Conn) (t : Int) (nm : String) : Conn :=
  { touchConn c t with p := { (touchConn c t).p with name := nm } }

theorem conns_id_unique {st : ServerState}
    (hnd : (st.conns.map (fun c => c.p.id)).Nodup)
    {a b : Conn} (ha : a ∈ st.conns) (hb : b ∈ st.conns)
    (hid : a.p.id = b.p.id) : a = b :=
  List.inj_on_of_nodup_map hnd ha hb hid

theorem setPresent_conns (st : ServerState) (cid : String) :
    (setPresent st cid).conns = st.conns := by
  unfold setPresent; split <;> rfl

theorem broadcastAll_conns_congr {st st' : ServerState} (h : st.conns = st'.conns)
    (fr : Frame) : broadcastAll st fr = broadcastAll st' fr := by
  unfold broadcastAll; rw [h]

theorem broadcastExcept_conns_congr {st st' : ServerState} (h : st.conns = st'.conns)
    (e : String) (fr : Frame) : broadcastExcept st e fr = broadcastExcept st' e fr := by
  unfold broadcastExcept; rw [h]

theorem handleMsg_rename_accept {st : ServerState} {cid : String} {t : Int}
    {name : String} {c0 : Conn} (h : st.findConn cid = some c0)
    (hne : jsTrim name ≠ "")
    (hdiff : jsTake (jsTrim name) NAME_MAX ≠ c0.p.name) :
    handleMsg st cid t (.rename (some name)) =
      (let st' := setPresent
        (stPut st cid (renameConn c0 t (jsTake (jsTrim name) NAME_MAX))) cid
       (st', broadcastAll st' (.renamed cid (jsTake (jsTrim name) NAME_MAX)))) := by
  unfold handleMsg
  rw [h]
  simp only [Option.getD_some]
  rw [if_neg hne]
  have hd : jsTake (jsTrim name) NAME_MAX ≠ (touchConn c0 t).p.name := hdiff
  rw [if_neg hd]
  rfl

theorem handleMsg_rename_same {st : ServerState} {cid : String} {t : Int}
    {name : String} {c0 : Conn} (h : st.findConn cid = some c0)
    (hne : jsTrim name ≠ "")
    (hsame : jsTake (jsTrim name) NAME_MAX = c0.p.name) :
    handleMsg st cid t (.rename (some name)) = (stPut st cid (touchConn c0 t), []) := by
  unfold handleMsg
  rw [h]
  simp only [Option.getD_some]
  rw [if_neg hne]
  have : jsTake (jsTrim name) NAME_MAX = (touchConn c0 t).p.name := hsame
  rw [if_pos this]

theorem handleMsg_rename_empty {st : ServerState} {cid : String} {t : Int}
    {name? : Option String} {c0 : Conn} (h : st.findConn cid = some c0)
    (hemp : jsTrim (name?.getD "") = "") :
    handleMsg st cid t (.rename name?) = (stPut st cid (touchConn c0 t), []) := by
  unfold handleMsg
  rw [h]
  dsimp only
  rw [if_pos hemp]

theorem handleMsg_join_named {st : ServerState} {cid : String} {t : Int}
    {name : String} {c0 : Conn} (h : st.findConn cid = some c0)
    (hne : jsTrim name ≠ "") :
    handleMsg st cid t (.join (some name)) =
      (let st' := setPresent
        (stPut st cid (renameConn c0 t (jsTake (jsTrim name) NAME_MAX))) cid
       (st', sendTo st' cid (.state (snapshot st')) ++
         broadcastExcept st' cid (.renamed cid (jsTake (jsTrim name) NAME_MAX)))) := by
  unfold handleMsg
  rw [h]
  simp only [Option.getD_some]
  rw [if_neg hne]
  rfl

theorem handleMsg_join_empty {st : ServerState} {cid : String} {t : Int}
    {name? : Option String} {c0 : Conn} (h : st.findConn cid = some c0)
    (hemp : jsTrim (name?.getD "") = "") :
    handleMsg st cid t (.join name?) = (stPut st cid (touchConn c0 t), []) := by
  unfold handleMsg
  rw [h]
  dsimp only
  rw [if_pos hemp]

theorem mem_sendTo {st : ServerState} {cid r : String} {fr fr' : Frame} :
    (r, fr') ∈ sendTo st cid fr ↔
      r = cid ∧ fr' = fr ∧ ∃ c, st.findConn cid = some c ∧ c.isOpen := by
  unfold sendTo
  cases h : st.findConn cid with
  | none => simp
  | some c =>
    by_cases ho : c.isOpen
    · simp only [if_pos ho, List.mem_singleton, Prod.mk.injEq]
      constructor
      · rintro ⟨h1, h2⟩; exact ⟨h1, h2, c, rfl, ho⟩
      · rintro ⟨h1, h2, _⟩; exact ⟨h1, h2⟩
    · simp only [Bool.not_eq_true] at ho
      simp [ho]

theorem exists_open_stPut {st : ServerState} {cid : String} {c0 c : Conn} {r : String}
    (h : st.findConn cid = some c0) (hc : c.p.id = cid) (hopen : c.isOpen = c0.isOpen)
    (hnd : (st.conns.map (fun c => c.p.id)).Nodup) :
    (∃ a ∈ (stPut st cid c).conns, a.p.id = r ∧ a.isOpen) ↔
      (∃ a ∈ st.conns, a.p.id = r ∧ a.isOpen) := by
  have hc0id : c0.p.id = cid := findConn_id h
  have hc0m : c0 ∈ st.conns := findConn_mem h
  unfold stPut updConn
  simp only [List.mem_map]
  constructor
  · rintro ⟨a', ⟨a, ha, rfl⟩, hid, ho⟩
    by_cases hac : a.p.id = cid
    · rw [show (if (a.p.id == cid) = true then c else a) = c by simp [hac]] at hid ho
      have haeq : a = c0 := conns_id_unique hnd ha hc0m (hac.trans hc0id.symm)
      refine ⟨a, ha, ?_, ?_⟩
      · rw [hac, ← hc]; exact hid
      · rw [haeq, ← hopen]; exact ho
    · rw [show (if (a.p.id == cid) = true then c else a) = a by simp [hac]] at hid ho
      exact ⟨a, ha, hid, ho⟩
  · rintro ⟨a, ha, hid, ho⟩
    by_cases hac : a.p.id = cid
    · have haeq : a = c0 := conns_id_unique hnd ha hc0m (hac.trans hc0id.symm)
      refine ⟨c, ⟨a, ha, by simp [hac]⟩, ?_, ?_⟩
      · rw [hc, ← hac]; exact hid
      · rw [hopen, ← haeq]; exact ho
    · exact ⟨a, ⟨a, ha, by simp [hac]⟩, hid, ho⟩

/-! ### C2: audience of the `renamed` frame -/

/-- Concrete fixture: three open connections at `(100,100)`, `(250,100)`
and `(900,800)`, all registered. -/
def wcA : Conn := ⟨⟨"a", "Guest-a", 100, 100, "red", 0⟩, true, true, 0, 0⟩

def wcB : Conn := ⟨⟨"b", "Guest-b", 250, 100, "blue", 0⟩, true, true, 0, 0⟩

def wcC : Conn := ⟨⟨"c", "Guest-c", 900, 800, "green", 0⟩, true, true, 0, 0⟩

def wSt : ServerState := ⟨[wcA, wcB, wcC], ["a", "b", "c"]⟩

/-- C2, counterexample: an accepted `rename` from `a` delivers the
`renamed` frame to the sender `a` itself (the claim says the sender is
excluded), while an accepted name-correcting `join` from `a` does not
deliver `renamed` to `a` (the claim says the sender is included). -/
theorem C2_counterexample :
    ("a", Frame.renamed "a" "X") ∈ (handleMsg wSt "a" 5 (.rename (some "X"))).2 ∧
    ("a", Frame.renamed "a" "X") ∉ (handleMsg wSt "a" 5 (.join (some "X"))).2 := by
  decide

/-- C2 (amended): the audiences are the opposite of the claim.  For an
accepted `rename` the `renamed {id, name}` broadcast goes to every open
connection including the sender; for an accepted `join` that sets the
name it goes to every open connection except the sender (who instead
receives the `state` snapshot). -/
theorem C2_renamed_audience {st : ServerState} {cid : String} {t : Int}
    {name : String} {c0 : Conn}
    (h : st.findConn cid = some c0)
    (hnd : (st.conns.map (fun c => c.p.id)).Nodup)
    (hne : jsTrim name ≠ "")
    (hdiff : jsTake (jsTrim name) NAME_MAX ≠ c0.p.name) :
    (∀ r, (r, Frame.renamed cid (jsTake (jsTrim name) NAME_MAX)) ∈
        (handleMsg st cid t (.rename (some name))).2 ↔
      ∃ a ∈ st.conns, a.p.id = r ∧ a.isOpen) ∧
    (∀ r, (r, Frame.renamed cid (jsTake (jsTrim name) NAME_MAX)) ∈
        (handleMsg st cid t (.join (some name))).2 ↔
      (r ≠ cid ∧ ∃ a ∈ st.conns, a.p.id = r ∧ a.isOpen)) := by
  have hc0 : c0.p.id = cid := findConn_id h
  have hc' : (renameConn c0 t (jsTake (jsTrim name) NAME_MAX)).p.id = cid := hc0
  constructor
  · intro r
    rw [handleMsg_rename_accept h hne hdiff]
    dsimp only
    rw [broadcastAll_conns_congr (setPresent_conns _ _) _]
    rw [mem_broadcastAll]
    rw [exists_open_stPut h hc' rfl hnd]
    simp
  · intro r
    rw [handleMsg_join_named h hne]
    dsimp only
    rw [List.mem_append]
    rw [broadcastExcept_conns_congr (setPresent_conns _ _) _ _]
    rw [mem_broadcastExcept]
    rw [exists_open_stPut h hc' rfl hnd]
    constructor
    · rintro (hs | hb)
      · rcases mem_sendTo.1 hs with ⟨_, hfr, _⟩
        exact absurd hfr (by simp)
      · exact ⟨hb.2.1, hb.2.2⟩
    · rintro ⟨hne', hex⟩
      exact Or.inr ⟨rfl, hne', hex⟩

/-- C2, witness: in the three-connection fixture, the sender `a` is
among the recipients of its own accepted `rename`. -/
theorem C2_witness :
    wSt.findConn "a" = some wcA ∧
    (("a", Frame.renamed "a" (jsTake (jsTrim "X") NAME_MAX)) ∈
        (handleMsg wSt "a" 5 (.rename (some "X"))).2 ↔
      ∃ a ∈ wSt.conns, a.p.id = "a" ∧ a.isOpen) :=
  ⟨by decide,
    (@C2_renamed_audience wSt "a" 5 "X" wcA (by decide) (by decide) (by decide)
      (by decide)).1 "a"⟩

theorem findConn_conns_congr {st st' : ServerState} (h : st.conns = st'.conns)
    (i : String) : st.findConn i = st'.findConn i := by
  unfold ServerState.findConn; rw [h]

/-! ### C8: `state` re-send on `join` -/

/-- C8, counterexample: a `join` with no name sends nothing at all, in
particular no `state` snapshot to the sender. -/
theorem C8_counterexample :
    ¬ ∃ ps, ("a", Frame.state ps) ∈ (handleMsg wSt "a" 5 (.join none)).2 := by
  have hout : (handleMsg wSt "a" 5 (.join none)).2 = [] := by decide
  rw [hout]
  rintro ⟨ps, hps⟩
  exact List.not_mem_nil _ hps

/-- C8 (amended): a `join` whose `String()`-coerced name is absent or
empty after trimming has no effect beyond the `lastSeen`/`isAlive`
prologue and sends nothing; only a `join` whose coerced, trimmed name
is nonempty re-sends the full `state` snapshot to the sender.  (A
non-string name is accepted through the coercion — `{name: 42}`
arrives as `"42"` and does re-send — so nothing here calls those a
no-op.) -/
theorem C8_join_state_resend {st : ServerState} {cid : String} {t : Int}
    {c0 : Conn} (h : st.findConn cid = some c0) :
    (∀ name?, jsTrim (name?.getD "") = "" →
      handleMsg st cid t (.join name?) = (stPut st cid (touchConn c0 t), [])) ∧
    (∀ name, jsTrim name ≠ "" → c0.isOpen →
      ∃ ps, (cid, Frame.state ps) ∈ (handleMsg st cid t (.join (some name))).2) := by
  constructor
  · intro name? hemp
    exact handleMsg_join_empty h hemp
  · intro name hne hopen
    rw [handleMsg_join_named h hne]
    dsimp only
    refine ⟨snapshot (setPresent
      (stPut st cid (renameConn c0 t (jsTake (jsTrim name) NAME_MAX))) cid), ?_⟩
    apply List.mem_append_left
    rw [mem_sendTo]
    refine ⟨rfl, rfl, renameConn c0 t (jsTake (jsTrim name) NAME_MAX), ?_, hopen⟩
    have hc0 : c0.p.id = cid := findConn_id h
    have hcid : (renameConn c0 t (jsTake (jsTrim name) NAME_MAX)).p.id = cid := hc0
    rw [findConn_conns_congr (setPresent_conns _ _) cid]
    exact findConn_stPut_self h _ hcid

/-- C8, witness: in the fixture a nonempty-name `join` from `a` does
re-send the `state` snapshot to `a`. -/
theorem C8_witness :
    ∃ ps, ("a", Frame.state ps) ∈ (handleMsg wSt "a" 5 (.join (some "X"))).2 :=
  (@C8_join_state_resend wSt "a" 5 wcA (by decide)).2 "X" (by decide) (by decide)

/-- The connection state after an accepted `move` to `(x, y)` at time
`t` (prologue, gate timestamp, and position update combined). -/
def moveConn (c : Conn) (t x y : Int) : Conn :=
  { c with
    p := { c.p with lastSeen := t, x := x, y := y }
    isAlive := true
    lastMoveAt := t }

/-- The connection state after a `move` frame consumed the rate gate
but produced no position update. -/
def moveGateConn (c : Conn) (t : Int) : Conn :=
  { (touchConn c t) with lastMoveAt := t }

/-- The connection state after a `chat` frame consumed the rate gate. -/
def chatConn (c : Conn) (t : Int) : Conn :=
  { (touchConn c t) with lastChatAt := t }

theorem handleMsg_move_gated {st : ServerState} {cid : String} {t : Int}
    {c0 : Conn} {xr yr : JsNum} (h : st.findConn cid = some c0)
    (hg : t - c0.lastMoveAt < MOVE_RATE_LIMIT_MS) :
    handleMsg st cid t (.move xr yr) = (stPut st cid (touchConn c0 t), []) := by
  unfold handleMsg
  rw [h]
  dsimp only
  rw [if_pos (show t - (touchConn c0 t).lastMoveAt < MOVE_RATE_LIMIT_MS from hg)]

theorem handleMsg_move_nonfinite {st : ServerState} {cid : String} {t : Int}
    {c0 : Conn} {xr yr : JsNum} (h : st.findConn cid = some c0)
    (hg : ¬ t - c0.lastMoveAt < MOVE_RATE_LIMIT_MS)
    (hnf : xr = .nonFinite ∨ yr = .nonFinite) :
    handleMsg st cid t (.move xr yr) = (stPut st cid (moveGateConn c0 t), []) := by
  unfold handleMsg
  rw [h]
  dsimp only
  rw [if_neg (show ¬ t - (touchConn c0 t).lastMoveAt < MOVE_RATE_LIMIT_MS from hg)]
  rcases hnf with rfl | rfl
  · cases yr <;> rfl
  · cases xr <;> rfl

theorem handleMsg_move_same {st : ServerState} {cid : String} {t : Int}
    {c0 : Conn} {vx vy : Rat} (h : st.findConn cid = some c0)
    (hg : ¬ t - c0.lastMoveAt < MOVE_RATE_LIMIT_MS)
    (hx : clamp (jsRound vx) 0 ROOM_WIDTH = c0.p.x)
    (hy : clamp (jsRound vy) 0 ROOM_HEIGHT = c0.p.y) :
    handleMsg st cid t (.move (.finite vx) (.finite vy)) =
      (stPut st cid (moveGateConn c0 t), []) := by
  unfold handleMsg
  rw [h]
  dsimp only
  rw [if_neg (show ¬ t - (touchConn c0 t).lastMoveAt < MOVE_RATE_LIMIT_MS from hg)]
  rw [if_pos (show clamp (jsRound vx) 0 ROOM_WIDTH = (touchConn c0 t).p.x ∧
    clamp (jsRound vy) 0 ROOM_HEIGHT = (touchConn c0 t).p.y from ⟨hx, hy⟩)]
  rfl

theorem handleMsg_move_accept {st : ServerState} {cid : String} {t : Int}
    {c0 : Conn} {vx vy : Rat} (h : st.findConn cid = some c0)
    (hg : ¬ t - c0.lastMoveAt < MOVE_RATE_LIMIT_MS)
    (hdiff : ¬ (clamp (jsRound vx) 0 ROOM_WIDTH = c0.p.x ∧
      clamp (jsRound vy) 0 ROOM_HEIGHT = c0.p.y)) :
    handleMsg st cid t (.move (.finite vx) (.finite vy)) =
      (let c2 := moveConn c0 t (clamp (jsRound vx) 0 ROOM_WIDTH)
        (clamp (jsRound vy) 0 ROOM_HEIGHT)
       let st' := setPresent (stPut st cid c2) cid
       (st', broadcastExcept st' cid
          (.moved cid (clamp (jsRound vx) 0 ROOM_WIDTH) (clamp (jsRound vy) 0 ROOM_HEIGHT)) ++
        sendTo st' cid (.proximity cid (calcNearby (registryParts st') c2.p)))) := by
  unfold handleMsg
  rw [h]
  dsimp only
  rw [if_neg (show ¬ t - (touchConn c0 t).lastMoveAt < MOVE_RATE_LIMIT_MS from hg)]
  rw [if_neg (show ¬ (clamp (jsRound vx) 0 ROOM_WIDTH = (touchConn c0 t).p.x ∧
    clamp (jsRound vy) 0 ROOM_HEIGHT = (touchConn c0 t).p.y) from hdiff)]
  rfl

theorem handleMsg_chat_gated {st : ServerState} {cid : String} {t : Int}
    {c0 : Conn} {msg? : Option String} (h : st.findConn cid = some c0)
    (hg : t - c0.lastChatAt < CHAT_RATE_LIMIT_MS) :
    handleMsg st cid t (.chat msg?) = (stPut st cid (touchConn c0 t), []) := by
  unfold handleMsg
  rw [h]
  dsimp only
  rw [if_pos (show t - (touchConn c0 t).lastChatAt < CHAT_RATE_LIMIT_MS from hg)]

theorem handleMsg_chat_invalid {st : ServerState} {cid : String} {t : Int}
    {c0 : Conn} {msg? : Option String} (h : st.findConn cid = some c0)
    (hg : ¬ t - c0.lastChatAt < CHAT_RATE_LIMIT_MS)
    (hbad : msg?.getD "" = "" ∨ sanitizeMessage (msg?.getD "") = "") :
    handleMsg st cid t (.chat msg?) = (stPut st cid (chatConn c0 t), []) := by
  unfold handleMsg
  rw [h]
  dsimp only
  rw [if_neg (show ¬ t - (touchConn c0 t).lastChatAt < CHAT_RATE_LIMIT_MS from hg)]
  by_cases hraw : msg?.getD "" = ""
  · rw [if_pos hraw]
    rfl
  · rw [if_neg hraw]
    rcases hbad with hraw' | hsan
    · exact absurd hraw' hraw
    · rw [if_pos hsan]
      rfl

theorem handleMsg_chat_nosender {st : ServerState} {cid : String} {t : Int}
    {c0 : Conn} {msg? : Option String} (h : st.findConn cid = some c0)
    (hg : ¬ t - c0.lastChatAt < CHAT_RATE_LIMIT_MS)
    (hraw : msg?.getD "" ≠ "") (hsan : sanitizeMessage (msg?.getD "") ≠ "")
    (hp : cid ∉ st.present) :
    handleMsg st cid t (.chat msg?) = (stPut st cid (chatConn c0 t), []) := by
  unfold handleMsg
  rw [h]
  dsimp only
  rw [if_neg (show ¬ t - (touchConn c0 t).lastChatAt < CHAT_RATE_LIMIT_MS from hg)]
  rw [if_neg hraw, if_neg hsan]
  rw [if_neg (show ¬ cid ∈ (stPut st cid
    { (touchConn c0 t) with lastChatAt := t }).present from hp)]
  rfl

theorem handleMsg_chat_lonely {st : ServerState} {cid : String} {t : Int}
    {c0 : Conn} {msg? : Option String} (h : st.findConn cid = some c0)
    (hg : ¬ t - c0.lastChatAt < CHAT_RATE_LIMIT_MS)
    (hraw : msg?.getD "" ≠ "") (hsan : sanitizeMessage (msg?.getD "") ≠ "")
    (hp : cid ∈ st.present)
    (hnear : getProximityParticipants
      (registryParts (stPut st cid (chatConn c0 t))) (chatConn c0 t).p = []) :
    handleMsg st cid t (.chat msg?) =
      (stPut st cid (chatConn c0 t),
        sendTo (stPut st cid (chatConn c0 t)) cid
          (.chatError "No one nearby to chat with")) := by
  unfold handleMsg
  rw [h]
  dsimp only
  rw [if_neg (show ¬ t - (touchConn c0 t).lastChatAt < CHAT_RATE_LIMIT_MS from hg)]
  rw [if_neg hraw, if_neg hsan]
  rw [if_pos (show cid ∈ (stPut st cid
    { (touchConn c0 t) with lastChatAt := t }).present from hp)]
  rw [if_pos (show (getProximityParticipants (registryParts (stPut st cid
    { (touchConn c0 t) with lastChatAt := t })) (touchConn c0 t).p).isEmpty = true by
      have he : getProximityParticipants (registryParts (stPut st cid
        { (touchConn c0 t) with lastChatAt := t })) (touchConn c0 t).p = [] := hnear
      rw [he]; rfl)]
  rfl

theorem handleMsg_chat_deliver {st : ServerState} {cid : String} {t : Int}
    {c0 : Conn} {msg? : Option String} (h : st.findConn cid = some c0)
    (hg : ¬ t - c0.lastChatAt < CHAT_RATE_LIMIT_MS)
    (hraw : msg?.getD "" ≠ "") (hsan : sanitizeMessage (msg?.getD "") ≠ "")
    (hp : cid ∈ st.present)
    (hnear : getProximityParticipants
      (registryParts (stPut st cid (chatConn c0 t))) (chatConn c0 t).p ≠ []) :
    handleMsg st cid t (.chat msg?) =
      (stPut st cid (chatConn c0 t),
        sendToParts (stPut st cid (chatConn c0 t))
          ((chatConn c0 t).p :: getProximityParticipants
            (registryParts (stPut st cid (chatConn c0 t))) (chatConn c0 t).p)
          (.chat (chatConn c0 t).p.id (chatConn c0 t).p.name
            (sanitizeMessage (msg?.getD "")) t)) := by
  unfold handleMsg
  rw [h]
  dsimp only
  rw [if_neg (show ¬ t - (touchConn c0 t).lastChatAt < CHAT_RATE_LIMIT_MS from hg)]
  rw [if_neg hraw, if_neg hsan]
  rw [if_pos (show cid ∈ (stPut st cid
    { (touchConn c0 t) with lastChatAt := t }).present from hp)]
  rw [if_neg (show ¬ (getProximityParticipants (registryParts (stPut st cid
    { (touchConn c0 t) with lastChatAt := t })) (touchConn c0 t).p).isEmpty = true by
      have he : getProximityParticipants (registryParts (stPut st cid
        { (touchConn c0 t) with lastChatAt := t })) (touchConn c0 t).p ≠ [] := hnear
      simpa [List.isEmpty_iff] using he)]
  rfl

/-! ### C3: invalid `move`/`chat` fields -/

/-- C3, counterexample: a `move` whose coordinates are non-finite and a
whitespace-only `chat` are both dropped, yet each consumes its rate
gate: the per-connection rate-limiter timestamps change from `0` to the
arrival time `5000`, contradicting the claim that they are unchanged. -/
theorem C3_counterexample :
    ((handleMsg wSt "a" 5000 (.move .nonFinite .nonFinite)).1.findConn "a").map
        (fun c => c.lastMoveAt) = some 5000 ∧
    (wSt.findConn "a").map (fun c => c.lastMoveAt) = some 0 ∧
    ((handleMsg wSt "a" 5000 (.chat (some " "))).1.findConn "a").map
        (fun c => c.lastChatAt) = some 5000 ∧
    (wSt.findConn "a").map (fun c => c.lastChatAt) = some 0 := by
  decide

/-- C3 (amended): a `move` with a non-finite coordinate and a `chat`
whose message is empty after trimming are dropped with no frame sent to
anyone and no change to any registry position or name; besides the
universal `lastSeen`/`isAlive` prologue, the only mutation is that the
frame's own rate-gate timestamp is set to the arrival time whenever the
frame passed the gate (the gate is consumed before validation). -/
theorem C3_invalid_dropped {st : ServerState} {cid : String} {t : Int}
    {c0 : Conn} {xr yr : JsNum} {raw : String}
    (h : st.findConn cid = some c0)
    (hnf : xr = .nonFinite ∨ yr = .nonFinite)
    (hemp : jsTrim raw = "") :
    handleMsg st cid t (.move xr yr) =
      (stPut st cid (if t - c0.lastMoveAt < MOVE_RATE_LIMIT_MS then touchConn c0 t
        else moveGateConn c0 t), []) ∧
    handleMsg st cid t (.chat (some raw)) =
      (stPut st cid (if t - c0.lastChatAt < CHAT_RATE_LIMIT_MS then touchConn c0 t
        else chatConn c0 t), []) := by
  constructor
  · by_cases hg : t - c0.lastMoveAt < MOVE_RATE_LIMIT_MS
    · rw [if_pos hg]; exact handleMsg_move_gated h hg
    · rw [if_neg hg]; exact handleMsg_move_nonfinite h hg hnf
  · have hsan : sanitizeMessage raw = "" := by
      unfold sanitizeMessage
      rw [hemp]
      rfl
    by_cases hg : t - c0.lastChatAt < CHAT_RATE_LIMIT_MS
    · rw [if_pos hg]; exact handleMsg_chat_gated h hg
    · rw [if_neg hg]
      exact handleMsg_chat_invalid h hg (Or.inr hsan)

/-- C3, witness: a non-finite `move` and a whitespace `chat` on the
fixture, both past their gates, are dropped with no output. -/
theorem C3_witness :
    jsTrim " " = "" ∧
    (handleMsg wSt "a" 5000 (.move .nonFinite .nonFinite) =
      (stPut wSt "a" (if (5000 : Int) - wcA.lastMoveAt < MOVE_RATE_LIMIT_MS
        then touchConn wcA 5000 else moveGateConn wcA 5000), []) ∧
    handleMsg wSt "a" 5000 (.chat (some " ")) =
      (stPut wSt "a" (if (5000 : Int) - wcA.lastChatAt < CHAT_RATE_LIMIT_MS
        then touchConn wcA 5000 else chatConn wcA 5000), [])) :=
  ⟨by decide,
    @C3_invalid_dropped wSt "a" 5000 wcA .nonFinite .nonFinite " "
      (by decide) (Or.inl rfl) (by decide)⟩

/-! ### C10: no-op guards on `move` and `rename` -/

/-- C10: a gate-passing `move` whose clamped, rounded target equals the
current position mutates nothing but `lastSeen`/`isAlive`/`lastMoveAt`
and emits no frame at all (in particular no `moved` and no `proximity`),
and a `rename` whose clamped name equals the current name emits no
frame at all (in particular no `renamed`). -/
theorem C10_noop_guards {st : ServerState} {cid : String} {t : Int}
    {c0 : Conn} {vx vy : Rat} {name : String}
    (h : st.findConn cid = some c0)
    (hg : ¬ t - c0.lastMoveAt < MOVE_RATE_LIMIT_MS)
    (hx : clamp (jsRound vx) 0 ROOM_WIDTH = c0.p.x)
    (hy : clamp (jsRound vy) 0 ROOM_HEIGHT = c0.p.y)
    (hsame : jsTake (jsTrim name) NAME_MAX = c0.p.name) :
    handleMsg st cid t (.move (.finite vx) (.finite vy)) =
      (stPut st cid (moveGateConn c0 t), []) ∧
    (handleMsg st cid t (.rename (some name))).2 = [] := by
  refine ⟨handleMsg_move_same h hg hx hy, ?_⟩
  by_cases hemp : jsTrim name = ""
  · rw [handleMsg_rename_empty h (by simpa using hemp)]
  · rw [handleMsg_rename_same h hemp hsame]

/-- C10, witness: a `move` back to `(100, 100)` and a `rename` to the
current name, from the fixture connection `a`, produce no output. -/
theorem C10_witness :
    handleMsg wSt "a" 5000 (.move (.finite 100) (.finite 100)) =
      (stPut wSt "a" (moveGateConn wcA 5000), []) ∧
    (handleMsg wSt "a" 5000 (.rename (some " Guest-a "))).2 = [] :=
  @C10_noop_guards wSt "a" 5000 wcA 100 100 " Guest-a "
    (by decide) (by decide) (by decide) (by decide) (by decide)

/-! ### C7: rate limiting -/

theorem handleMsg_chat_stateEq {st : ServerState} {cid : String} {t : Int}
    {c0 : Conn} {msg? : Option String} (h : st.findConn cid = some c0)
    (hg : ¬ t - c0.lastChatAt < CHAT_RATE_LIMIT_MS) :
    (handleMsg st cid t (.chat msg?)).1 = stPut st cid (chatConn c0 t) := by
  by_cases hraw : msg?.getD "" = ""
  · rw [handleMsg_chat_invalid h hg (Or.inl hraw)]
  · by_cases hsan : sanitizeMessage (msg?.getD "") = ""
    · rw [handleMsg_chat_invalid h hg (Or.inr hsan)]
    · by_cases hp : cid ∈ st.present
      · by_cases hnear : getProximityParticipants
          (registryParts (stPut st cid (chatConn c0 t))) (chatConn c0 t).p = []
        · rw [handleMsg_chat_lonely h hg hraw hsan hp hnear]
        · rw [handleMsg_chat_deliver h hg hraw hsan hp hnear]
      · rw [handleMsg_chat_nosender h hg hraw hsan hp]

theorem handleMsg_chat_connAfter {st : ServerState} {cid : String} {t : Int}
    {c0 : Conn} {msg? : Option String} (h : st.findConn cid = some c0) :
    ∃ c', (handleMsg st cid t (.chat msg?)).1.findConn cid = some c' ∧
      c'.lastMoveAt = c0.lastMoveAt := by
  have hc0 : c0.p.id = cid := findConn_id h
  by_cases hg : t - c0.lastChatAt < CHAT_RATE_LIMIT_MS
  · refine ⟨touchConn c0 t, ?_, rfl⟩
    rw [handleMsg_chat_gated h hg]
    exact findConn_stPut_self h _ (show (touchConn c0 t).p.id = cid from hc0)
  · refine ⟨chatConn c0 t, ?_, rfl⟩
    rw [handleMsg_chat_stateEq h hg]
    exact findConn_stPut_self h _ (show (chatConn c0 t).p.id = cid from hc0)

theorem handleMsg_move_connAfter {st : ServerState} {cid : String} {t : Int}
    {c0 : Conn} {xr yr : JsNum} (h : st.findConn cid = some c0) :
    ∃ c', (handleMsg st cid t (.move xr yr)).1.findConn cid = some c' ∧
      c'.lastChatAt = c0.lastChatAt := by
  have hc0 : c0.p.id = cid := findConn_id h
  by_cases hg : t - c0.lastMoveAt < MOVE_RATE_LIMIT_MS
  · refine ⟨touchConn c0 t, ?_, rfl⟩
    rw [handleMsg_move_gated h hg]
    exact findConn_stPut_self h _ (show (touchConn c0 t).p.id = cid from hc0)
  · cases xr with
    | nonFinite =>
      refine ⟨moveGateConn c0 t, ?_, rfl⟩
      rw [handleMsg_move_nonfinite h hg (Or.inl rfl)]
      exact findConn_stPut_self h _ (show (moveGateConn c0 t).p.id = cid from hc0)
    | finite vx =>
      cases yr with
      | nonFinite =>
        refine ⟨moveGateConn c0 t, ?_, rfl⟩
        rw [handleMsg_move_nonfinite h hg (Or.inr rfl)]
        exact findConn_stPut_self h _ (show (moveGateConn c0 t).p.id = cid from hc0)
      | finite vy =>
        by_cases hsame : clamp (jsRound vx) 0 ROOM_WIDTH = c0.p.x ∧
          clamp (jsRound vy) 0 ROOM_HEIGHT = c0.p.y
        · refine ⟨moveGateConn c0 t, ?_, rfl⟩
          rw [handleMsg_move_same h hg hsame.1 hsame.2]
          exact findConn_stPut_self h _ (show (moveGateConn c0 t).p.id = cid from hc0)
        · refine ⟨moveConn c0 t (clamp (jsRound vx) 0 ROOM_WIDTH)
            (clamp (jsRound vy) 0 ROOM_HEIGHT), ?_, rfl⟩
          rw [handleMsg_move_accept h hg hsame]
          dsimp only
          rw [findConn_conns_congr (setPresent_conns _ _) cid]
          exact findConn_stPut_self h _
            (show (moveConn c0 t (clamp (jsRound vx) 0 ROOM_WIDTH)
              (clamp (jsRound vy) 0 ROOM_HEIGHT)).p.id = cid from hc0)

/-- C7: two `move` frames within `T_move` yield exactly one accepted
position update: the first (past its own gate, with a genuinely new
position) stores the clamped rounded target, the second is dropped
silently with no reply and no further state change beyond the prologue.
Two `chat` frames within `T_chat` yield output only from the first (the
second produces no frame).  The two gates are independent: handling any
`chat` preserves `lastMoveAt` and handling any `move` preserves
`lastChatAt`. -/
theorem C7_rate_limit {st : ServerState} {cid : String} {c0 : Conn}
    {t1 t2 : Int} {vx vy : Rat}
    (h : st.findConn cid = some c0)
    (hg1 : ¬ t1 - c0.lastMoveAt < MOVE_RATE_LIMIT_MS)
    (h12 : t2 - t1 < MOVE_RATE_LIMIT_MS)
    (hdiff : ¬ (clamp (jsRound vx) 0 ROOM_WIDTH = c0.p.x ∧
      clamp (jsRound vy) 0 ROOM_HEIGHT = c0.p.y)) :
    ((handleMsg st cid t1 (.move (.finite vx) (.finite vy))).1.findConn cid =
      some (moveConn c0 t1 (clamp (jsRound vx) 0 ROOM_WIDTH)
        (clamp (jsRound vy) 0 ROOM_HEIGHT))) ∧
    (∀ xr2 yr2, handleMsg (handleMsg st cid t1 (.move (.finite vx) (.finite vy))).1
        cid t2 (.move xr2 yr2) =
      (stPut (handleMsg st cid t1 (.move (.finite vx) (.finite vy))).1 cid
        (touchConn (moveConn c0 t1 (clamp (jsRound vx) 0 ROOM_WIDTH)
          (clamp (jsRound vy) 0 ROOM_HEIGHT)) t2), [])) ∧
    (∀ (m1 m2 : Option String) (s1 s2 : Int),
      ¬ s1 - c0.lastChatAt < CHAT_RATE_LIMIT_MS → s2 - s1 < CHAT_RATE_LIMIT_MS →
      (handleMsg (handleMsg st cid s1 (.chat m1)).1 cid s2 (.chat m2)).2 = []) ∧
    (∀ (m : Option String) (s : Int),
      ((handleMsg st cid s (.chat m)).1.findConn cid).map
        (fun c => c.lastMoveAt) = some c0.lastMoveAt) ∧
    (∀ (xr yr : JsNum) (s : Int),
      ((handleMsg st cid s (.move xr yr)).1.findConn cid).map
        (fun c => c.lastChatAt) = some c0.lastChatAt) := by
  have hc0 : c0.p.id = cid := findConn_id h
  have hA : (handleMsg st cid t1 (.move (.finite vx) (.finite vy))).1.findConn cid =
      some (moveConn c0 t1 (clamp (jsRound vx) 0 ROOM_WIDTH)
        (clamp (jsRound vy) 0 ROOM_HEIGHT)) := by
    rw [handleMsg_move_accept h hg1 hdiff]
    dsimp only
    rw [findConn_conns_congr (setPresent_conns _ _) cid]
    exact findConn_stPut_self h _
      (show (moveConn c0 t1 (clamp (jsRound vx) 0 ROOM_WIDTH)
        (clamp (jsRound vy) 0 ROOM_HEIGHT)).p.id = cid from hc0)
  refine ⟨hA, ?_, ?_, ?_, ?_⟩
  · intro xr2 yr2
    exact handleMsg_move_gated hA
      (show t2 - (moveConn c0 t1 (clamp (jsRound vx) 0 ROOM_WIDTH)
        (clamp (jsRound vy) 0 ROOM_HEIGHT)).lastMoveAt < MOVE_RATE_LIMIT_MS from h12)
  · intro m1 m2 s1 s2 hcg1 hcg2
    have hst : (handleMsg st cid s1 (.chat m1)).1 = stPut st cid (chatConn c0 s1) :=
      handleMsg_chat_stateEq h hcg1
    have hfc : (handleMsg st cid s1 (.chat m1)).1.findConn cid =
        some (chatConn c0 s1) := by
      rw [hst]
      exact findConn_stPut_self h _ (show (chatConn c0 s1).p.id = cid from hc0)
    rw [handleMsg_chat_gated hfc
      (show s2 - (chatConn c0 s1).lastChatAt < CHAT_RATE_LIMIT_MS from hcg2)]
  · intro m s
    obtain ⟨c', hfc, hlm⟩ := @handleMsg_chat_connAfter st cid s c0 m h
    rw [hfc]
    simp [hlm]
  · intro xr yr s
    obtain ⟨c', hfc, hlc⟩ := @handleMsg_move_connAfter st cid s c0 xr yr h
    rw [hfc]
    simp [hlc]

/-- C7, witness: from the fixture, a `move` to `(305, 100)` at `t=5000`
is accepted and an immediate second `move` at `t=5010` is dropped with
no output. -/
theorem C7_witness :
    ((handleMsg wSt "a" 5000 (.move (.finite 305) (.finite 100))).1.findConn "a" =
      some (moveConn wcA 5000 (clamp (jsRound 305) 0 ROOM_WIDTH)
        (clamp (jsRound 100) 0 ROOM_HEIGHT))) ∧
    handleMsg (handleMsg wSt "a" 5000 (.move (.finite 305) (.finite 100))).1
        "a" 5010 (.move (.finite 500) (.finite 100)) =
      (stPut (handleMsg wSt "a" 5000 (.move (.finite 305) (.finite 100))).1 "a"
        (touchConn (moveConn wcA 5000 (clamp (jsRound 305) 0 ROOM_WIDTH)
          (clamp (jsRound 100) 0 ROOM_HEIGHT)) 5010), []) := by
  have hmain := @C7_rate_limit wSt "a" wcA 5000 5010 305 100
    (by decide) (by decide) (by decide) (by decide)
  exact ⟨hmain.1, hmain.2.1 (.finite 500) (.finite 100)⟩

/-! ### C5: chat scoping -/

theorem mem_getProximity {parts : List Participant} {p q : Participant} :
    q ∈ getProximityParticipants parts p ↔
      q ∈ parts ∧ q.id ≠ p.id ∧
        (p.x - q.x) * (p.x - q.x) + (p.y - q.y) * (p.y - q.y) ≤
          PROXIMITY_RADIUS * PROXIMITY_RADIUS := by
  simp only [getProximityParticipants, List.mem_filter, Bool.and_eq_true,
    Bool.not_eq_true', beq_eq_false_iff_ne, decide_eq_true_eq]
  constructor
  · rintro ⟨hm, hne, hd⟩
    exact ⟨hm, fun e => hne e.symm, hd⟩
  · rintro ⟨hm, hne, hd⟩
    exact ⟨hm, fun e => hne e.symm, hd⟩

theorem mem_registryParts_stPut_ne {st : ServerState} {cid : String}
    {c : Conn} {q : Participant}
    (hc : c.p.id = cid) (hne : q.id ≠ cid) :
    q ∈ registryParts (stPut st cid c) ↔ q ∈ registryParts st := by
  simp only [registryParts, List.mem_filterMap, stPut_present, Option.map_eq_some']
  constructor
  · rintro ⟨i, hi, a, hfc, rfl⟩
    have hai : a.p.id = i := findConn_id hfc
    have hic : i ≠ cid := fun e => hne (hai.symm ▸ e)
    rw [findConn_stPut_ne c hc hic] at hfc
    exact ⟨i, hi, a, hfc, rfl⟩
  · rintro ⟨i, hi, a, hfc, rfl⟩
    have hai : a.p.id = i := findConn_id hfc
    have hic : i ≠ cid := fun e => hne (hai.symm ▸ e)
    rw [← findConn_stPut_ne c hc hic] at hfc
    exact ⟨i, hi, a, hfc, rfl⟩

theorem sendTo_eq_open {st : ServerState} {cid : String} {c : Conn}
    (hfc : st.findConn cid = some c) (ho : c.isOpen) (fr : Frame) :
    sendTo st cid fr = [(cid, fr)] := by
  unfold sendTo
  rw [hfc]
  dsimp only
  rw [if_pos ho]

theorem mem_sendToParts {st : ServerState} {targets : List Participant}
    {fr fr' : Frame} {r : String} :
    (r, fr') ∈ sendToParts st targets fr ↔
      fr' = fr ∧ (∃ c ∈ st.conns, c.p.id = r ∧ c.isOpen) ∧
        (∃ q ∈ registryParts st, q.id = r) ∧ (∃ q ∈ targets, q.id = r) := by
  simp only [sendToParts, List.mem_map, List.mem_filter, Bool.and_eq_true,
    List.any_eq_true, beq_iff_eq, Prod.mk.injEq]
  constructor
  · rintro ⟨c, ⟨hm, ⟨ho, q1, hq1, hq1e⟩, q2, hq2, hq2e⟩, hid, hfr⟩
    exact ⟨hfr.symm, ⟨c, hm, hid, ho⟩, ⟨q1, hq1, hid ▸ hq1e⟩, ⟨q2, hq2, hid ▸ hq2e⟩⟩
  · rintro ⟨hfr, ⟨c, hm, hid, ho⟩, ⟨q1, hq1, hq1e⟩, ⟨q2, hq2, hq2e⟩⟩
    exact ⟨c, ⟨hm, ⟨ho, q1, hq1, hid.symm ▸ hq1e⟩, q2, hq2, hid.symm ▸ hq2e⟩, hid, hfr.symm⟩

theorem self_mem_stPut {st : ServerState} {cid : String} {c0 : Conn}
    (h : st.findConn cid = some c0) (c : Conn) :
    c ∈ (stPut st cid c).conns := by
  unfold stPut updConn
  exact List.mem_map.2 ⟨c0, findConn_mem h, by simp [findConn_id h]⟩

theorem other_mem_stPut {st : ServerState} {cid : String} {a : Conn}
    (ha : a ∈ st.conns) (hane : a.p.id ≠ cid) (c : Conn) :
    a ∈ (stPut st cid c).conns := by
  unfold stPut updConn
  exact List.mem_map.2 ⟨a, ha, by simp [hane]⟩

/-- C5: an accepted, sanitized `chat` from `cid` is scoped by proximity.
If no other registry participant lies within the radius of the sender,
the handler emits exactly one frame: `chat_error` back to the sender.
Otherwise the `chat` frame goes precisely to the sender and to every
registry participant within the radius (each holding an open
connection), to nobody else, and no `chat_error` is emitted. -/
theorem C5_chat_scoping {st : ServerState} {cid : String} {t : Int}
    {c0 : Conn} {raw : String}
    (h : st.findConn cid = some c0)
    (hopen : c0.isOpen)
    (hg : ¬ t - c0.lastChatAt < CHAT_RATE_LIMIT_MS)
    (hraw : raw ≠ "")
    (hsan : sanitizeMessage raw ≠ "")
    (hp : cid ∈ st.present)
    (hcov : ∀ q ∈ registryParts st, ∃ a ∈ st.conns, a.p.id = q.id ∧ a.isOpen) :
    ((∀ q ∈ registryParts st, q.id ≠ cid →
        ¬ ((c0.p.x - q.x) * (c0.p.x - q.x) + (c0.p.y - q.y) * (c0.p.y - q.y) ≤
          PROXIMITY_RADIUS * PROXIMITY_RADIUS)) →
      (handleMsg st cid t (.chat (some raw))).2 =
        [(cid, Frame.chatError "No one nearby to chat with")]) ∧
    ((∃ q ∈ registryParts st, q.id ≠ cid ∧
        (c0.p.x - q.x) * (c0.p.x - q.x) + (c0.p.y - q.y) * (c0.p.y - q.y) ≤
          PROXIMITY_RADIUS * PROXIMITY_RADIUS) →
      (∀ r, (r, Frame.chat cid c0.p.name (sanitizeMessage raw) t) ∈
          (handleMsg st cid t (.chat (some raw))).2 ↔
        (r = cid ∨ ∃ q ∈ registryParts st, q.id = r ∧ q.id ≠ cid ∧
          (c0.p.x - q.x) * (c0.p.x - q.x) + (c0.p.y - q.y) * (c0.p.y - q.y) ≤
            PROXIMITY_RADIUS * PROXIMITY_RADIUS)) ∧
      (∀ r msg, (r, Frame.chatError msg) ∉ (handleMsg st cid t (.chat (some raw))).2)) := by
  have hc0 : c0.p.id = cid := findConn_id h
  have hcc : (chatConn c0 t).p.id = cid := hc0
  have hfc1 : (stPut st cid (chatConn c0 t)).findConn cid = some (chatConn c0 t) :=
    findConn_stPut_self h _ hcc
  have hsmem : (chatConn c0 t).p ∈ registryParts (stPut st cid (chatConn c0 t)) :=
    mem_registryParts.2 ⟨cid, hp, _, hfc1, rfl⟩
  constructor
  · intro hfar
    have hnear : getProximityParticipants
        (registryParts (stPut st cid (chatConn c0 t))) (chatConn c0 t).p = [] := by
      rw [List.eq_nil_iff_forall_not_mem]
      intro q hq
      rw [mem_getProximity] at hq
      obtain ⟨hqm, hqne, hqd⟩ := hq
      have hqne' : q.id ≠ cid := by rw [hcc] at hqne; exact hqne
      have hqst : q ∈ registryParts st := (mem_registryParts_stPut_ne hcc hqne').1 hqm
      exact hfar q hqst hqne' hqd
    rw [handleMsg_chat_lonely h hg (show (some raw).getD "" ≠ "" from hraw)
      (show sanitizeMessage ((some raw).getD "") ≠ "" from hsan) hp hnear]
    dsimp only
    exact sendTo_eq_open hfc1 (show (chatConn c0 t).isOpen from hopen) _
  · intro hnearEx
    have hnear : getProximityParticipants
        (registryParts (stPut st cid (chatConn c0 t))) (chatConn c0 t).p ≠ [] := by
      obtain ⟨q, hq, hqne, hqd⟩ := hnearEx
      intro hnil
      have hqmem : q ∈ getProximityParticipants
          (registryParts (stPut st cid (chatConn c0 t))) (chatConn c0 t).p :=
        mem_getProximity.2 ⟨(mem_registryParts_stPut_ne hcc hqne).2 hq,
          (by rw [hcc]; exact hqne), hqd⟩
      rw [hnil] at hqmem
      exact List.not_mem_nil _ hqmem
    rw [handleMsg_chat_deliver h hg (show (some raw).getD "" ≠ "" from hraw)
      (show sanitizeMessage ((some raw).getD "") ≠ "" from hsan) hp hnear]
    dsimp only
    constructor
    · intro r
      rw [mem_sendToParts]
      constructor
      · rintro ⟨hfr, hconn, hreg, q, hq, hqe⟩
        rcases List.mem_cons.1 hq with rfl | hqn
        · left
          rw [← hqe]
          exact hcc
        · right
          rw [mem_getProximity] at hqn
          obtain ⟨hqm, hqne, hqd⟩ := hqn
          have hqne' : q.id ≠ cid := by rw [hcc] at hqne; exact hqne
          exact ⟨q, (mem_registryParts_stPut_ne hcc hqne').1 hqm, hqe, hqne', hqd⟩
      · rintro (rfl | ⟨q, hqst, hqe, hqne, hqd⟩)
        · refine ⟨?_, ⟨chatConn c0 t, self_mem_stPut h _, hcc, hopen⟩,
            ⟨(chatConn c0 t).p, hsmem, hcc⟩,
            ⟨(chatConn c0 t).p, List.mem_cons_self _ _, hcc⟩⟩
          rw [hcc]
          rfl
        · obtain ⟨a, ham, haid, hao⟩ := hcov q hqst
          have hane : a.p.id ≠ cid := by rw [haid]; exact hqne
          refine ⟨?_, ⟨a, other_mem_stPut ham hane _, by rw [haid, hqe], hao⟩,
            ⟨q, (mem_registryParts_stPut_ne hcc hqne).2 hqst, hqe⟩,
            ⟨q, List.mem_cons_of_mem _ (mem_getProximity.2
              ⟨(mem_registryParts_stPut_ne hcc hqne).2 hqst,
                (by rw [hcc]; exact hqne), hqd⟩), hqe⟩⟩
          rw [hcc]
          rfl
    · intro r msg hmem
      rw [mem_sendToParts] at hmem
      exact absurd hmem.1 (by simp)

/-- C5, witness: in the fixture, `b` at `(250, 100)` is within radius of
`a` at `(100, 100)`, so `a`'s chat is delivered to `b`; `c`'s chat at
`(900, 800)` yields only a `chat_error` back to `c`. -/
theorem C5_witness :
    (("b", Frame.chat "a" wcA.p.name (sanitizeMessage "hi") 5000) ∈
        (handleMsg wSt "a" 5000 (.chat (some "hi"))).2 ↔
      ("b" = "a" ∨ ∃ q ∈ registryParts wSt, q.id = "b" ∧ q.id ≠ "a" ∧
        (wcA.p.x - q.x) * (wcA.p.x - q.x) + (wcA.p.y - q.y) * (wcA.p.y - q.y) ≤
          PROXIMITY_RADIUS * PROXIMITY_RADIUS)) ∧
    (handleMsg wSt "c" 5000 (.chat (some "hi"))).2 =
      [("c", Frame.chatError "No one nearby to chat with")] := by
  have h1 := @C5_chat_scoping wSt "a" 5000 wcA "hi"
    (by decide) (by decide) (by decide) (by decide) (by decide) (by decide)
    (by decide)
  have h2 := @C5_chat_scoping wSt "c" 5000 wcC "hi"
    (by decide) (by decide) (by decide) (by decide) (by decide) (by decide)
    (by decide)
  exact ⟨(h1.2 (by decide)).1 "b", h2.1 (by decide)⟩

/-! ### C6 and C9: reachable-state invariants -/

theorem handleMsg_ping_eq {st : ServerState} {cid : String} {t : Int}
    {c0 : Conn} (h : st.findConn cid = some c0) :
    handleMsg st cid t .ping =
      (stPut st cid (touchConn c0 t),
        sendTo (stPut st cid (touchConn c0 t)) cid .pong) := by
  unfold handleMsg
  rw [h]

theorem handleMsg_unknown_eq {st : ServerState} {cid : String} {t : Int}
    {c0 : Conn} (h : st.findConn cid = some c0) :
    handleMsg st cid t .unknown = (stPut st cid (touchConn c0 t), []) := by
  unfold handleMsg
  rw [h]

theorem handleMsg_none {st : ServerState} {cid : String} {t : Int}
    {m : ClientMsg} (h : st.findConn cid = none) :
    handleMsg st cid t m = (st, []) := by
  unfold handleMsg
  rw [h]

theorem mem_stPut_conns {st : ServerState} {cid : String} {X c' : Conn}
    (hm : c' ∈ (stPut st cid X).conns) : c' = X ∨ c' ∈ st.conns := by
  unfold stPut updConn at hm
  rcases List.mem_map.1 hm with ⟨a, ha, hEq⟩
  by_cases hac : a.p.id = cid
  · left
    rw [← hEq]
    simp [hac]
  · right
    have hia : (if (a.p.id == cid) = true then X else a) = a := by simp [hac]
    rw [← hEq, hia]
    exact ha

/-- The per-connection invariant: position inside the room, name within
the clamp bound. -/
def ConnInv (c : Conn) : Prop :=
  0 ≤ c.p.x ∧ c.p.x ≤ ROOM_WIDTH ∧ 0 ≤ c.p.y ∧ c.p.y ≤ ROOM_HEIGHT ∧
    c.p.name.length ≤ NAME_MAX

theorem jsTake_length_le (s : String) (n : Nat) : (jsTake s n).length ≤ n := by
  have he : (jsTake s n).length = (s.data.take n).length := rfl
  rw [he, List.length_take]
  exact min_le_left _ _

theorem jsTake_length_eq {s : String} {n : Nat} (hn : n ≤ s.length) :
    (jsTake s n).length = n := by
  have he : (jsTake s n).length = (s.data.take n).length := rfl
  have hs : s.length = s.data.length := rfl
  rw [he, List.length_take]
  rw [hs] at hn
  exact min_eq_left hn

theorem clamp_bounds {v lo hi : Int} (hle : lo ≤ hi) :
    lo ≤ clamp v lo hi ∧ clamp v lo hi ≤ hi := by
  unfold clamp
  exact ⟨le_max_left _ _, max_le hle (min_le_left _ _)⟩

theorem handleMsg_conns_inv {st : ServerState} {cid : String} {t : Int}
    {m : ClientMsg} (IH : ∀ c ∈ st.conns, ConnInv c) :
    ∀ c' ∈ (handleMsg st cid t m).1.conns, ConnInv c' := by
  cases hf : st.findConn cid with
  | none =>
    rw [handleMsg_none hf]
    exact IH
  | some c0 =>
    have hinv0 : ConnInv c0 := IH c0 (findConn_mem hf)
    have htouch : ConnInv (touchConn c0 t) := hinv0
    have hstep : ∀ (X : Conn), ConnInv X →
        ∀ c' ∈ (stPut st cid X).conns, ConnInv c' := by
      intro X hX c' hc'
      rcases mem_stPut_conns hc' with rfl | hm
      · exact hX
      · exact IH c' hm
    have hrn : ∀ nm : String, nm.length ≤ NAME_MAX →
        ConnInv (renameConn c0 t nm) := by
      intro nm hnm
      exact ⟨hinv0.1, hinv0.2.1, hinv0.2.2.1, hinv0.2.2.2.1, hnm⟩
    cases m with
    | join name? =>
      by_cases hemp : jsTrim (name?.getD "") = ""
      · rw [handleMsg_join_empty hf hemp]
        exact hstep _ htouch
      · cases name? with
        | none => exact absurd rfl hemp
        | some name =>
          rw [handleMsg_join_named hf (show jsTrim name ≠ "" from hemp)]
          dsimp only
          intro c' hc'
          rw [setPresent_conns] at hc'
          exact hstep _ (hrn _ (jsTake_length_le _ _)) c' hc'
    | move xr yr =>
      by_cases hg : t - c0.lastMoveAt < MOVE_RATE_LIMIT_MS
      · rw [handleMsg_move_gated hf hg]
        exact hstep _ htouch
      · cases xr with
        | nonFinite =>
          rw [handleMsg_move_nonfinite hf hg (Or.inl rfl)]
          exact hstep _ htouch
        | finite vx =>
          cases yr with
          | nonFinite =>
            rw [handleMsg_move_nonfinite hf hg (Or.inr rfl)]
            exact hstep _ htouch
          | finite vy =>
            by_cases hsame : clamp (jsRound vx) 0 ROOM_WIDTH = c0.p.x ∧
              clamp (jsRound vy) 0 ROOM_HEIGHT = c0.p.y
            · rw [handleMsg_move_same hf hg hsame.1 hsame.2]
              exact hstep _ htouch
            · rw [handleMsg_move_accept hf hg hsame]
              dsimp only
              intro c' hc'
              rw [setPresent_conns] at hc'
              refine hstep _ ?_ c' hc'
              have hbx := @clamp_bounds (jsRound vx) 0 ROOM_WIDTH (by decide)
              have hby := @clamp_bounds (jsRound vy) 0 ROOM_HEIGHT (by decide)
              exact ⟨hbx.1, hbx.2, hby.1, hby.2, hinv0.2.2.2.2⟩
    | rename name? =>
      by_cases hemp : jsTrim (name?.getD "") = ""
      · rw [handleMsg_rename_empty hf hemp]
        exact hstep _ htouch
      · cases name? with
        | none => exact absurd rfl hemp
        | some name =>
          by_cases hsame : jsTake (jsTrim name) NAME_MAX = c0.p.name
          · rw [handleMsg_rename_same hf (show jsTrim name ≠ "" from hemp) hsame]
            exact hstep _ htouch
          · rw [handleMsg_rename_accept hf (show jsTrim name ≠ "" from hemp) hsame]
            dsimp only
            intro c' hc'
            rw [setPresent_conns] at hc'
            exact hstep _ (hrn _ (jsTake_length_le _ _)) c' hc'
    | ping =>
      rw [handleMsg_ping_eq hf]
      exact hstep _ htouch
    | chat msg? =>
      by_cases hg : t - c0.lastChatAt < CHAT_RATE_LIMIT_MS
      · rw [handleMsg_chat_gated hf hg]
        exact hstep _ htouch
      · intro c' hc'
        rw [handleMsg_chat_stateEq hf hg] at hc'
        exact hstep _ (show ConnInv (chatConn c0 t) from hinv0) c' hc'
    | unknown =>
      rw [handleMsg_unknown_eq hf]
      exact hstep _ htouch

theorem reachable_conn_inv {st : ServerState} (hr : Reachable st) :
    ∀ c ∈ st.conns, ConnInv c := by
  induction hr with
  | init => intro c hc; exact absurd hc (List.not_mem_nil c)
  | connect id sx sy color s hr hfresh hx0 hx1 hy0 hy1 IH =>
    intro c hc
    rcases List.mem_append.1 hc with hm | hm
    · exact IH c hm
    · rcases List.mem_singleton.1 hm with rfl
      refine ⟨hx0, le_of_lt hx1, hy0, le_of_lt hy1, ?_⟩
      have hl : ("Guest-" ++ jsTake id 5).length = 6 + (jsTake id 5).length := by
        rw [String.length_append, show "Guest-".length = 6 from rfl]
      rw [show (⟨id, "Guest-" ++ jsTake id 5, sx, sy, color, s⟩ : Participant).name =
        "Guest-" ++ jsTake id 5 from rfl] at *
      calc ("Guest-" ++ jsTake id 5).length = 6 + (jsTake id 5).length := hl
        _ ≤ 6 + 5 := by
            have := jsTake_length_le id 5
            omega
        _ ≤ NAME_MAX := by decide
  | msg cid s m hr IH => exact handleMsg_conns_inv IH
  | closeE cid hr IH =>
    intro c hc
    rcases List.mem_map.1 hc with ⟨a, ha, hEq⟩
    have hinva : ConnInv a := IH a ha
    by_cases hac : a.p.id = cid
    · rw [← hEq]
      simp only [hac]
      simpa using hinva
    · have hia : (if (a.p.id == cid) = true then { a with isOpen := false } else a)
        = a := by simp [hac]
      rw [← hEq, hia]
      exact hinva
  | sweepE s hr IH =>
    intro c hc
    rcases List.mem_map.1 hc with ⟨a, ha, hEq⟩
    have hinva : ConnInv a := IH a ha
    rw [← hEq]
    by_cases ho : a.isOpen
    · by_cases hal : a.isAlive
      · simp only [ho, hal]
        simpa using hinva
      · simp only [ho]
        simp only [show a.isAlive = false by simpa using hal]
        simpa using hinva
    · simp only [show a.isOpen = false by simpa using ho]
      simpa using hinva
  | pongE cid s hr IH =>
    intro c hc
    rcases List.mem_map.1 hc with ⟨a, ha, hEq⟩
    have hinva : ConnInv a := IH a ha
    by_cases hac : a.p.id = cid
    · rw [← hEq]
      simp only [hac]
      simpa using hinva
    · have hia : (if (a.p.id == cid) = true then
        { a with isAlive := true, p := { a.p with lastSeen := s } } else a) = a := by
        simp [hac]
      rw [← hEq, hia]
      exact hinva

/-- C6: in every reachable server state every registry participant's
stored (integer) position lies within `[0, ROOM_WIDTH] × [0,
ROOM_HEIGHT]`: the random spawn starts inside the room and every
accepted `move` stores a clamped position. -/
theorem C6_bounds_invariant {st : ServerState} (hr : Reachable st) :
    ∀ q ∈ registryParts st,
      0 ≤ q.x ∧ q.x ≤ ROOM_WIDTH ∧ 0 ≤ q.y ∧ q.y ≤ ROOM_HEIGHT := by
  intro q hq
  rcases mem_registryParts.1 hq with ⟨i, hi, c, hfc, rfl⟩
  have hinv := reachable_conn_inv hr c (findConn_mem hfc)
  exact ⟨hinv.1, hinv.2.1, hinv.2.2.1, hinv.2.2.2.1⟩

/-- C6, witness: the participant spawned at `(5, 7)` in a freshly
connected one-client state is inside the room bounds. -/
theorem C6_witness :
    0 ≤ (⟨"a", "Guest-a", 5, 7, "r", 0⟩ : Participant).x ∧
    (⟨"a", "Guest-a", 5, 7, "r", 0⟩ : Participant).x ≤ ROOM_WIDTH ∧
    0 ≤ (⟨"a", "Guest-a", 5, 7, "r", 0⟩ : Participant).y ∧
    (⟨"a", "Guest-a", 5, 7, "r", 0⟩ : Participant).y ≤ ROOM_HEIGHT :=
  C6_bounds_invariant
    (Reachable.connect "a" 5 7 "r" 0 Reachable.init
      (fun c hc => absurd hc (List.not_mem_nil c))
      (by decide) (by decide) (by decide) (by decide))
    ⟨"a", "Guest-a", 5, 7, "r", 0⟩ (by decide)

/-- C9: in every reachable state every stored name has length at most
`NAME_MAX`, and an accepted `join`/`rename` whose trimmed name is
longer than `NAME_MAX` stores exactly the first `NAME_MAX` characters
of the trimmed name. -/
theorem C9_name_clamp :
    (∀ st : ServerState, Reachable st →
      ∀ q ∈ registryParts st, q.name.length ≤ NAME_MAX) ∧
    (∀ (st : ServerState) (cid : String) (t : Int) (c0 : Conn) (name : String),
      st.findConn cid = some c0 → jsTrim name ≠ "" →
      NAME_MAX < (jsTrim name).length →
      ((jsTake (jsTrim name) NAME_MAX).length = NAME_MAX ∧
       (handleMsg st cid t (.join (some name))).1.findConn cid =
         some (renameConn c0 t (jsTake (jsTrim name) NAME_MAX)) ∧
       ∃ c', (handleMsg st cid t (.rename (some name))).1.findConn cid = some c' ∧
         c'.p.name = jsTake (jsTrim name) NAME_MAX)) := by
  constructor
  · intro st hr q hq
    rcases mem_registryParts.1 hq with ⟨i, hi, c, hfc, rfl⟩
    exact (reachable_conn_inv hr c (findConn_mem hfc)).2.2.2.2
  · intro st cid t c0 name h hne hlong
    have hc0 : c0.p.id = cid := findConn_id h
    have hcr : (renameConn c0 t (jsTake (jsTrim name) NAME_MAX)).p.id = cid := hc0
    refine ⟨jsTake_length_eq (le_of_lt hlong), ?_, ?_⟩
    · rw [handleMsg_join_named h hne]
      dsimp only
      rw [findConn_conns_congr (setPresent_conns _ _) cid]
      exact findConn_stPut_self h _ hcr
    · by_cases hsame : jsTake (jsTrim name) NAME_MAX = c0.p.name
      · refine ⟨touchConn c0 t, ?_, hsame.symm ▸ rfl⟩
        rw [handleMsg_rename_same h hne hsame]
        exact findConn_stPut_self h _ (show (touchConn c0 t).p.id = cid from hc0)
      · refine ⟨renameConn c0 t (jsTake (jsTrim name) NAME_MAX), ?_, rfl⟩
        rw [handleMsg_rename_accept h hne hsame]
        dsimp only
        rw [findConn_conns_congr (setPresent_conns _ _) cid]
        exact findConn_stPut_self h _ hcr

/-- C9, witness: names in the one-client reachable state are short, and
a 40-character rename through the fixture stores exactly 32
characters. -/
theorem C9_witness :
    (⟨"a", "Guest-a", 5, 7, "r", 0⟩ : Participant).name.length ≤ NAME_MAX ∧
    ((jsTake (jsTrim "0123456789012345678901234567890123456789") NAME_MAX).length
        = NAME_MAX ∧
     (handleMsg wSt "a" 5
        (.join (some "0123456789012345678901234567890123456789"))).1.findConn "a" =
       some (renameConn wcA 5
        (jsTake (jsTrim "0123456789012345678901234567890123456789") NAME_MAX)) ∧
     ∃ c', (handleMsg wSt "a" 5
        (.rename (some "0123456789012345678901234567890123456789"))).1.findConn "a" =
          some c' ∧
       c'.p.name = jsTake (jsTrim "0123456789012345678901234567890123456789") NAME_MAX) :=
  ⟨C9_name_clamp.1 _
    (Reachable.connect "a" 5 7 "r" 0 Reachable.init
      (fun c hc => absurd hc (List.not_mem_nil c))
      (by decide) (by decide) (by decide) (by decide))
    ⟨"a", "Guest-a", 5, 7, "r", 0⟩ (by decide),
   C9_name_clamp.2 wSt "a" 5 wcA "0123456789012345678901234567890123456789"
    (by decide) (by decide) (by decide)⟩

/-! ### C1: removal and `left` broadcasts -/

/-- Number of `left {i}` frames delivered to recipient `r` in a trace. -/
def countLeftTo (outs : List (String × Frame)) (r i : String) : Nat :=
  (outs.filter (fun x => decide (x = (r, Frame.left i)))).length

/-- A state in which connection `a` has already missed its liveness
probe (flag down) and been silent since `t = 0`, while `b` is live; the
heartbeat cycle runs late, at `t = 40000`. -/
def wStC : ServerState :=
  ⟨[⟨⟨"a", "Guest-a", 1, 1, "r", 0⟩, true, false, 0, 0⟩,
    ⟨⟨"b", "Guest-b", 2, 2, "g", 39999⟩, true, true, 0, 0⟩], ["a", "b"]⟩

/-- C1, counterexample: the late heartbeat sweep terminates `a`'s dead
socket and TTL-evicts it (first `left a` to `b`), and the transport
`close` event the termination triggers then broadcasts `left a` again —
the close handler deletes and broadcasts unconditionally.  Recipient `b`
receives `left a` twice. -/
theorem C1_counterexample :
    countLeftTo (processEvents wStC [Event.sweep 40000, Event.close "a"]).2
      "b" "a" = 2 := by
  decide

/-- Events that neither reconnect with id `i`, nor dispatch a frame on
`i`'s (possibly stale) connection, nor fire `i`'s transport close. -/
def eventQuiet (i : String) : Event → Prop
  | .connect j _ _ _ _ => j ≠ i
  | .msg cid _ _ => cid ≠ i
  | .close cid => cid ≠ i
  | .sweep _ => True
  | .pong _ _ => True

theorem mem_snapshot_id {st : ServerState} {v : ClientView}
    (hv : v ∈ snapshot st) : v.id ∈ st.present := by
  rcases List.mem_map.1 hv with ⟨q, hq, rfl⟩
  exact registryParts_id_mem hq

theorem mem_setPresent_present {st : ServerState} {cid i : String}
    (hi : i ∈ (setPresent st cid).present) : i ∈ st.present ∨ i = cid := by
  unfold setPresent at hi
  split at hi
  · exact Or.inl hi
  · rcases List.mem_append.1 hi with hm | hm
    · exact Or.inl hm
    · exact Or.inr (List.mem_singleton.1 hm)

theorem handleMsg_present_sub {st : ServerState} {cid : String} {t : Int}
    {m : ClientMsg} {i : String}
    (hi : i ∈ (handleMsg st cid t m).1.present) : i ∈ st.present ∨ i = cid := by
  cases hf : st.findConn cid with
  | none =>
    rw [handleMsg_none hf] at hi
    exact Or.inl hi
  | some c0 =>
    cases m with
    | join name? =>
      by_cases hemp : jsTrim (name?.getD "") = ""
      · rw [handleMsg_join_empty hf hemp] at hi
        exact Or.inl hi
      · cases name? with
        | none => exact absurd rfl hemp
        | some name =>
          rw [handleMsg_join_named hf (show jsTrim name ≠ "" from hemp)] at hi
          dsimp only at hi
          have h2 := mem_setPresent_present hi
          rcases h2 with hm | he
          · exact Or.inl hm
          · exact Or.inr he
    | move xr yr =>
      by_cases hg : t - c0.lastMoveAt < MOVE_RATE_LIMIT_MS
      · rw [handleMsg_move_gated hf hg] at hi
        exact Or.inl hi
      · cases xr with
        | nonFinite =>
          rw [handleMsg_move_nonfinite hf hg (Or.inl rfl)] at hi
          exact Or.inl hi
        | finite vx =>
          cases yr with
          | nonFinite =>
            rw [handleMsg_move_nonfinite hf hg (Or.inr rfl)] at hi
            exact Or.inl hi
          | finite vy =>
            by_cases hsame : clamp (jsRound vx) 0 ROOM_WIDTH = c0.p.x ∧
              clamp (jsRound vy) 0 ROOM_HEIGHT = c0.p.y
            · rw [handleMsg_move_same hf hg hsame.1 hsame.2] at hi
              exact Or.inl hi
            · rw [handleMsg_move_accept hf hg hsame] at hi
              dsimp only at hi
              have h2 := mem_setPresent_present hi
              rcases h2 with hm | he
              · exact Or.inl hm
              · exact Or.inr he
    | rename name? =>
      by_cases hemp : jsTrim (name?.getD "") = ""
      · rw [handleMsg_rename_empty hf hemp] at hi
        exact Or.inl hi
      · cases name? with
        | none => exact absurd rfl hemp
        | some name =>
          by_cases hsame : jsTake (jsTrim name) NAME_MAX = c0.p.name
          · rw [handleMsg_rename_same hf (show jsTrim name ≠ "" from hemp) hsame] at hi
            exact Or.inl hi
          · rw [handleMsg_rename_accept hf (show jsTrim name ≠ "" from hemp) hsame] at hi
            dsimp only at hi
            have h2 := mem_setPresent_present hi
            rcases h2 with hm | he
            · exact Or.inl hm
            · exact Or.inr he
    | ping =>
      rw [handleMsg_ping_eq hf] at hi
      exact Or.inl hi
    | chat msg? =>
      by_cases hg : t - c0.lastChatAt < CHAT_RATE_LIMIT_MS
      · rw [handleMsg_chat_gated hf hg] at hi
        exact Or.inl hi
      · have hst := @handleMsg_chat_stateEq st cid t c0 msg? hf hg
        rw [hst] at hi
        exact Or.inl hi
    | unknown =>
      rw [handleMsg_unknown_eq hf] at hi
      exact Or.inl hi

theorem handleMsg_out_ok {st : ServerState} {cid : String} {t : Int}
    {m : ClientMsg} {r : String} {fr : Frame}
    (hm : (r, fr) ∈ (handleMsg st cid t m).2) :
    (∀ j, fr ≠ Frame.left j) ∧
    (∀ ps, fr = Frame.state ps →
      ∀ v ∈ ps, v.id ∈ (handleMsg st cid t m).1.present) := by
  cases hf : st.findConn cid with
  | none =>
    rw [handleMsg_none hf] at hm
    exact absurd hm (List.not_mem_nil _)
  | some c0 =>
    cases m with
    | join name? =>
      by_cases hemp : jsTrim (name?.getD "") = ""
      · rw [handleMsg_join_empty hf hemp] at hm
        exact absurd hm (List.not_mem_nil _)
      · cases name? with
        | none => exact absurd rfl hemp
        | some name =>
          rw [handleMsg_join_named hf (show jsTrim name ≠ "" from hemp)] at hm ⊢
          dsimp only at hm ⊢
          rcases List.mem_append.1 hm with hs | hb
          · rcases mem_sendTo.1 hs with ⟨hrc, hfr, _⟩
            subst hfr
            refine ⟨fun j hj => Frame.noConfusion hj, ?_⟩
            intro ps hps v hv
            rw [Frame.state.injEq] at hps
            rw [← hps] at hv
            exact mem_snapshot_id hv
          · rcases mem_broadcastExcept.1 hb with ⟨hfr, _⟩
            subst hfr
            exact ⟨fun j hj => Frame.noConfusion hj, fun ps hps => Frame.noConfusion hps⟩
    | move xr yr =>
      by_cases hg : t - c0.lastMoveAt < MOVE_RATE_LIMIT_MS
      · rw [handleMsg_move_gated hf hg] at hm
        exact absurd hm (List.not_mem_nil _)
      · cases xr with
        | nonFinite =>
          rw [handleMsg_move_nonfinite hf hg (Or.inl rfl)] at hm
          exact absurd hm (List.not_mem_nil _)
        | finite vx =>
          cases yr with
          | nonFinite =>
            rw [handleMsg_move_nonfinite hf hg (Or.inr rfl)] at hm
            exact absurd hm (List.not_mem_nil _)
          | finite vy =>
            by_cases hsame : clamp (jsRound vx) 0 ROOM_WIDTH = c0.p.x ∧
              clamp (jsRound vy) 0 ROOM_HEIGHT = c0.p.y
            · rw [handleMsg_move_same hf hg hsame.1 hsame.2] at hm
              exact absurd hm (List.not_mem_nil _)
            · rw [handleMsg_move_accept hf hg hsame] at hm
              dsimp only at hm
              rcases List.mem_append.1 hm with hb | hs
              · rcases mem_broadcastExcept.1 hb with ⟨hfr, _⟩
                subst hfr
                exact ⟨fun j hj => Frame.noConfusion hj, fun ps hps => Frame.noConfusion hps⟩
              · rcases mem_sendTo.1 hs with ⟨_, hfr, _⟩
                subst hfr
                exact ⟨fun j hj => Frame.noConfusion hj, fun ps hps => Frame.noConfusion hps⟩
    | rename name? =>
      by_cases hemp : jsTrim (name?.getD "") = ""
      · rw [handleMsg_rename_empty hf hemp] at hm
        exact absurd hm (List.not_mem_nil _)
      · cases name? with
        | none => exact absurd rfl hemp
        | some name =>
          by_cases hsame : jsTake (jsTrim name) NAME_MAX = c0.p.name
          · rw [handleMsg_rename_same hf (show jsTrim name ≠ "" from hemp) hsame] at hm
            exact absurd hm (List.not_mem_nil _)
          · rw [handleMsg_rename_accept hf (show jsTrim name ≠ "" from hemp) hsame] at hm
            dsimp only at hm
            rcases mem_broadcastAll.1 hm with ⟨hfr, _⟩
            subst hfr
            exact ⟨fun j hj => Frame.noConfusion hj, fun ps hps => Frame.noConfusion hps⟩
    | ping =>
      rw [handleMsg_ping_eq hf] at hm
      dsimp only at hm
      rcases mem_sendTo.1 hm with ⟨_, hfr, _⟩
      subst hfr
      exact ⟨fun j hj => Frame.noConfusion hj, fun ps hps => Frame.noConfusion hps⟩
    | chat msg? =>
      by_cases hg : t - c0.lastChatAt < CHAT_RATE_LIMIT_MS
      · rw [handleMsg_chat_gated hf hg] at hm
        exact absurd hm (List.not_mem_nil _)
      · by_cases hraw : msg?.getD "" = ""
        · rw [handleMsg_chat_invalid hf hg (Or.inl hraw)] at hm
          exact absurd hm (List.not_mem_nil _)
        · by_cases hsan : sanitizeMessage (msg?.getD "") = ""
          · rw [handleMsg_chat_invalid hf hg (Or.inr hsan)] at hm
            exact absurd hm (List.not_mem_nil _)
          · by_cases hp : cid ∈ st.present
            · by_cases hnear : getProximityParticipants
                (registryParts (stPut st cid (chatConn c0 t))) (chatConn c0 t).p = []
              · rw [handleMsg_chat_lonely hf hg hraw hsan hp hnear] at hm
                dsimp only at hm
                rcases mem_sendTo.1 hm with ⟨_, hfr, _⟩
                subst hfr
                exact ⟨fun j hj => Frame.noConfusion hj, fun ps hps => Frame.noConfusion hps⟩
              · rw [handleMsg_chat_deliver hf hg hraw hsan hp hnear] at hm
                dsimp only at hm
                rcases mem_sendToParts.1 hm with ⟨hfr, _⟩
                subst hfr
                exact ⟨fun j hj => Frame.noConfusion hj, fun ps hps => Frame.noConfusion hps⟩
            · rw [handleMsg_chat_nosender hf hg hraw hsan hp] at hm
              exact absurd hm (List.not_mem_nil _)
    | unknown =>
      rw [handleMsg_unknown_eq hf] at hm
      exact absurd hm (List.not_mem_nil _)

theorem processEvent_quiet {st : ServerState} {i : String} {e : Event}
    (hq : eventQuiet i e) (hnp : i ∉ st.present) :
    i ∉ (processEvent st e).1.present ∧
    (∀ r, (r, Frame.left i) ∉ (processEvent st e).2) ∧
    (∀ r ps, (r, Frame.state ps) ∈ (processEvent st e).2 → ∀ v ∈ ps, v.id ≠ i) := by
  cases e with
  | connect j sx sy color s =>
    have hji : j ≠ i := hq
    refine ⟨?_, ?_, ?_⟩
    · intro hmem
      rcases List.mem_append.1 hmem with hm | hm
      · exact hnp hm
      · exact hji (List.mem_singleton.1 hm).symm
    · intro r hmem
      unfold processEvent connectClient at hmem
      dsimp only at hmem
      rcases List.mem_append.1 hmem with hm | hb
      · rcases List.mem_cons.1 hm with heq | hm2
        · exact Frame.noConfusion (congrArg Prod.snd heq)
        · rcases List.mem_singleton.1 hm2 with heq
          exact Frame.noConfusion (congrArg Prod.snd heq)
      · rcases mem_broadcastExcept.1 hb with ⟨hfr, _⟩
        exact Frame.noConfusion hfr
    · intro r ps hmem v hv hvi
      unfold processEvent connectClient at hmem
      dsimp only at hmem
      rcases List.mem_append.1 hmem with hm | hb
      · rcases List.mem_cons.1 hm with heq | hm2
        · exact Frame.noConfusion (congrArg Prod.snd heq)
        · rcases List.mem_singleton.1 hm2 with heq
          rw [Prod.mk.injEq] at heq
          obtain ⟨-, hfr⟩ := heq
          rw [Frame.state.injEq] at hfr
          rw [hfr] at hv
          have hid := mem_snapshot_id hv
          rw [hvi] at hid
          rcases List.mem_append.1 hid with hm | hm
          · exact hnp hm
          · exact hji (List.mem_singleton.1 hm).symm
      · rcases mem_broadcastExcept.1 hb with ⟨hfr, _⟩
        exact Frame.noConfusion hfr
  | msg cid s m =>
    have hci : cid ≠ i := hq
    refine ⟨?_, ?_, ?_⟩
    · intro hmem
      rcases handleMsg_present_sub hmem with hm | he
      · exact hnp hm
      · exact hci he.symm
    · intro r hmem
      exact (handleMsg_out_ok hmem).1 i rfl
    · intro r ps hmem v hv hvi
      have hid := (handleMsg_out_ok hmem).2 ps rfl v hv
      rw [hvi] at hid
      rcases handleMsg_present_sub hid with hm | he
      · exact hnp hm
      · exact hci he.symm
  | close cid =>
    have hci : cid ≠ i := hq
    refine ⟨?_, ?_, ?_⟩
    · intro hmem
      exact hnp (List.mem_of_mem_erase hmem)
    · intro r hmem
      rcases mem_broadcastAll.1 hmem with ⟨hfr, _⟩
      rw [Frame.left.injEq] at hfr
      exact hci hfr.symm
    · intro r ps hmem v hv hvi
      rcases mem_broadcastAll.1 hmem with ⟨hfr, _⟩
      exact Frame.noConfusion hfr
  | sweep s =>
    refine ⟨?_, ?_, ?_⟩
    · intro hmem
      unfold processEvent sweepEvt at hmem
      dsimp only at hmem
      exact hnp (List.mem_of_mem_filter hmem)
    · intro r hmem
      unfold processEvent sweepEvt at hmem
      dsimp only at hmem
      rcases List.mem_flatMap.1 hmem with ⟨j, hj, hb⟩
      rcases mem_broadcastAll.1 hb with ⟨hfr, _⟩
      rw [Frame.left.injEq] at hfr
      have hjp : j ∈ st.present := List.mem_of_mem_filter hj
      rw [← hfr] at hjp
      exact hnp hjp
    · intro r ps hmem v hv hvi
      unfold processEvent sweepEvt at hmem
      dsimp only at hmem
      rcases List.mem_flatMap.1 hmem with ⟨j, hj, hb⟩
      rcases mem_broadcastAll.1 hb with ⟨hfr, _⟩
      exact Frame.noConfusion hfr
  | pong cid s =>
    refine ⟨hnp, ?_, ?_⟩
    · intro r hmem
      exact List.not_mem_nil _ hmem
    · intro r ps hmem
      exact absurd hmem (List.not_mem_nil _)

theorem processEvents_quiet {i : String} : ∀ (evs : List Event) (st : ServerState),
    (∀ e ∈ evs, eventQuiet i e) → i ∉ st.present →
    i ∉ (processEvents st evs).1.present ∧
    (∀ r, (r, Frame.left i) ∉ (processEvents st evs).2) ∧
    (∀ r ps, (r, Frame.state ps) ∈ (processEvents st evs).2 →
      ∀ v ∈ ps, v.id ≠ i) := by
  intro evs
  induction evs with
  | nil =>
    intro st _ hnp
    exact ⟨hnp, fun r hm => List.not_mem_nil _ hm,
      fun r ps hm => absurd hm (List.not_mem_nil _)⟩
  | cons e es ih =>
    intro st hq hnp
    have h1 := processEvent_quiet (hq e (List.mem_cons_self e es)) hnp
    have h2 := ih (processEvent st e).1
      (fun e' he' => hq e' (List.mem_cons_of_mem e he')) h1.1
    refine ⟨h2.1, ?_, ?_⟩
    · intro r hmem
      rcases List.mem_append.1 hmem with hm | hm
      · exact h1.2.1 r hm
      · exact h2.2.1 r hm
    · intro r ps hmem
      rcases List.mem_append.1 hmem with hm | hm
      · exact h1.2.2 r ps hm
      · exact h2.2.2 r ps hm

theorem countLeftTo_append (l1 l2 : List (String × Frame)) (r i : String) :
    countLeftTo (l1 ++ l2) r i = countLeftTo l1 r i + countLeftTo l2 r i := by
  unfold countLeftTo
  rw [List.filter_append, List.length_append]

theorem countLeftTo_flatMap (l : List String)
    (f : String → List (String × Frame)) (r i : String) :
    countLeftTo (l.flatMap f) r i = (l.map (fun x => countLeftTo (f x) r i)).sum := by
  induction l with
  | nil => rfl
  | cons a l ih =>
    rw [List.flatMap_cons, countLeftTo_append, List.map_cons, List.sum_cons, ih]

theorem countLeftTo_broadcast_ne {st : ServerState} {r i j : String}
    (hne : j ≠ i) : countLeftTo (broadcastAll st (Frame.left j)) r i = 0 := by
  unfold countLeftTo broadcastAll
  rw [List.length_eq_zero]
  rw [List.filter_eq_nil]
  intro x hx
  rcases List.mem_map.1 hx with ⟨c, _, rfl⟩
  simp [Prod.mk.injEq, hne]

theorem length_filter_id_le_one {l : List Conn} {r : String}
    (hnd : (l.map (fun c => c.p.id)).Nodup) :
    (l.filter (fun c => decide (c.p.id = r))).length ≤ 1 := by
  induction l with
  | nil => simp
  | cons a l ih =>
    rw [List.map_cons, List.nodup_cons] at hnd
    by_cases har : a.p.id = r
    · rw [List.filter_cons_of_pos (by simpa using har)]
      simp only [List.length_cons]
      have hz : (l.filter (fun c => decide (c.p.id = r))).length = 0 := by
        rw [List.length_eq_zero, List.filter_eq_nil_iff]
        intro c hc
        simp only [decide_eq_true_eq]
        intro hcr
        exact hnd.1 (by rw [har, ← hcr]; exact List.mem_map_of_mem _ hc)
      omega
    · rw [List.filter_cons_of_neg (by simpa using har)]
      exact ih hnd.2

theorem countLeftTo_broadcast_self {st : ServerState} {r i : String}
    (hnd : (st.conns.map (fun c => c.p.id)).Nodup) :
    countLeftTo (broadcastAll st (Frame.left i)) r i ≤ 1 := by
  unfold countLeftTo broadcastAll
  rw [List.filter_map, List.length_map]
  have hsub : ((st.conns.filter (fun c => c.isOpen)).filter
      ((fun x => decide (x = (r, Frame.left i))) ∘ (fun c => (c.p.id, Frame.left i)))).length ≤
      (st.conns.filter (fun c => decide (c.p.id = r))).length := by
    apply List.Sublist.length_le
    have h1 : List.Sublist ((st.conns.filter (fun c => c.isOpen)).filter
        ((fun x => decide (x = (r, Frame.left i))) ∘ (fun c => (c.p.id, Frame.left i))))
        (st.conns.filter
        ((fun x => decide (x = (r, Frame.left i))) ∘ (fun c => (c.p.id, Frame.left i)))) :=
      List.Sublist.filter _ (List.filter_sublist _)
    have h2 : st.conns.filter
        ((fun x => decide (x = (r, Frame.left i))) ∘ (fun c => (c.p.id, Frame.left i))) =
        st.conns.filter (fun c => decide (c.p.id = r)) := by
      apply List.filter_congr
      intro c _
      simp [Prod.mk.injEq]
    rw [h2] at h1
    exact h1
  exact le_trans hsub (length_filter_id_le_one hnd)

theorem sum_single_bound {l : List String} {g : String → Nat} {i : String}
    (h0 : ∀ j ∈ l, j ≠ i → g j = 0) (h1 : g i ≤ 1) (hc : l.count i ≤ 1) :
    (l.map g).sum ≤ 1 := by
  induction l with
  | nil => simp
  | cons a l ih =>
    simp only [List.map_cons, List.sum_cons]
    by_cases hai : a = i
    · subst hai
      have hcl : l.count a = 0 := by
        rw [List.count_cons_self] at hc
        omega
      have hz : (l.map g).sum = 0 := by
        apply List.sum_eq_zero
        intro x hx
        rcases List.mem_map.1 hx with ⟨j, hj, rfl⟩
        apply h0 j (List.mem_cons_of_mem _ hj)
        intro hji
        subst hji
        have := List.count_pos_iff_mem.2 hj
        omega
      rw [hz]
      omega
    · rw [h0 a (List.mem_cons_self a l) hai]
      have hc' : l.count i ≤ 1 := by
        rw [List.count_cons_of_ne (fun e => hai e.symm)] at hc
        exact hc
      have := ih (fun j hj hji => h0 j (List.mem_cons_of_mem _ hj) hji) hc'
      omega

theorem sweep_left_once {st : ServerState} {t : Int} {r i : String}
    (hcnt : st.present.count i ≤ 1)
    (hnd : (st.conns.map (fun c => c.p.id)).Nodup) :
    countLeftTo (sweepEvt st t).2 r i ≤ 1 := by
  unfold sweepEvt
  dsimp only
  rw [countLeftTo_flatMap]
  apply sum_single_bound
  · intro j _ hne
    exact countLeftTo_broadcast_ne hne
  · apply countLeftTo_broadcast_self
    have hids : (st.conns.map (fun c =>
        if c.isOpen then
          (if c.isAlive then { c with isAlive := false }
            else { c with isOpen := false })
        else c)).map (fun c => c.p.id) = st.conns.map (fun c => c.p.id) := by
      rw [List.map_map]
      apply List.map_congr_left
      intro a _
      by_cases ho : a.isOpen <;> by_cases hal : a.isAlive <;>
        simp [ho, hal, Function.comp]
    rw [show ((⟨st.conns.map (fun c =>
        if c.isOpen then
          (if c.isAlive then { c with isAlive := false }
            else { c with isOpen := false })
        else c), st.present⟩ : ServerState)).conns = st.conns.map (fun c =>
        if c.isOpen then
          (if c.isAlive then { c with isAlive := false }
            else { c with isOpen := false })
        else c) from rfl]
    rw [hids]
    exact hnd
  · calc (st.present.filter _).count i ≤ st.present.count i :=
        List.Sublist.count_le (List.filter_sublist _) i
    _ ≤ 1 := hcnt

/-- C1 (amended): removal is permanent and sweep-side exactly-once, but
not globally exactly-once.  (1) Once an id is out of the registry, any
sequence of heartbeat sweeps, other connections' traffic, fresh
connections, and other sockets' close events never broadcasts
`left {id}` again, never re-inserts the id, and never shows the id in a
`state` snapshot.  (2) A single heartbeat sweep delivers `left {id}` to
any fixed recipient at most once.  The claim's global exactly-once
fails only because the transport-close handler broadcasts
unconditionally: a TTL eviction followed by the socket's own close
yields a second `left {id}` (see the counterexample). -/
theorem C1_left_once_after_removal :
    (∀ (st : ServerState) (i : String) (evs : List Event),
      i ∉ st.present → (∀ e ∈ evs, eventQuiet i e) →
      i ∉ (processEvents st evs).1.present ∧
      (∀ r, (r, Frame.left i) ∉ (processEvents st evs).2) ∧
      (∀ r ps, (r, Frame.state ps) ∈ (processEvents st evs).2 →
        ∀ v ∈ ps, v.id ≠ i)) ∧
    (∀ (st : ServerState) (t : Int) (r i : String),
      st.present.count i ≤ 1 → (st.conns.map (fun c => c.p.id)).Nodup →
      countLeftTo (sweepEvt st t).2 r i ≤ 1) :=
  ⟨fun st i evs hnp hq => processEvents_quiet evs st hq hnp,
   fun st t r i hcnt hnd => sweep_left_once hcnt hnd⟩

/-- C1, witness: with `a` already removed, a sweep, a reconnect of a
fresh id `d`, and `b`'s close broadcast no `left a` and no snapshot
containing `a`; and on the double-`left` fixture a single sweep delivers
`left a` to `b` only once. -/
theorem C1_witness :
    ("a" ∉ (processEvents ⟨[wcB, wcC], ["b", "c"]⟩
        [Event.sweep 40000, Event.connect "d" 3 4 "y" 40001,
          Event.close "b"]).1.present ∧
      (∀ r, (r, Frame.left "a") ∉ (processEvents ⟨[wcB, wcC], ["b", "c"]⟩
        [Event.sweep 40000, Event.connect "d" 3 4 "y" 40001,
          Event.close "b"]).2) ∧
      (∀ r ps, (r, Frame.state ps) ∈ (processEvents ⟨[wcB, wcC], ["b", "c"]⟩
        [Event.sweep 40000, Event.connect "d" 3 4 "y" 40001,
          Event.close "b"]).2 → ∀ v ∈ ps, v.id ≠ "a")) ∧
    countLeftTo (sweepEvt wStC 40000).2 "b" "a" ≤ 1 :=
  ⟨C1_left_once_after_removal.1 ⟨[wcB, wcC], ["b", "c"]⟩ "a"
      [Event.sweep 40000, Event.connect "d" 3 4 "y" 40001, Event.close "b"]
      (by decide)
      (by
        intro e he
        rcases List.mem_cons.1 he with rfl | he2
        · exact trivial
        · rcases List.mem_cons.1 he2 with rfl | he3
          · exact (by decide : ("d" : String) ≠ "a")
          · rcases List.mem_cons.1 he3 with rfl | he4
            · exact (by decide : ("b" : String) ≠ "a")
            · exact absurd he4 (List.not_mem_nil _)),
   C1_left_once_after_removal.2 wStC 40000 "b" "a" (by decide) (by decide)⟩
